import Mathlib

/-!
Verification of the overlap-resolving identifier redactor of the
anonymization-filter repository.

The redactor lives in `src/filter_ID.py` (function `replace_identifiers`,
duplicated verbatim in `src/full_anon.py`) and, in a slightly different
variant, in `dataset_filter_ID.py` / `src/text_filter_ID.py`
(function `reemplazar_identificadores`).  Texts are Python strings, i.e.
sequences of code points; we model them as `List Char`.

The pattern catalogs are dictionaries of regular expressions compiled with
`re.IGNORECASE`.  We embed the regexes as a first-order syntax tree `RE`
over character classes, with an executable matching function `ends` that
mirrors the backtracking priority order of CPython's `re` engine
(alternation tries the left branch first, bounded repetition is greedy),
and a scanner `finditer` that mirrors `re.finditer` (leftmost match wins,
scanning resumes at the end of each non-empty match).

Word characters (`\b`) and the classes `\d`, `\s`, `[A-Z]` (case-insensitive)
are modelled over ASCII plus the Latin-1 letters (covering `Ñ`, accented
letters); decimal digits, whitespace and case folds outside that range are
not modelled.  None of the theorems below depend on the exact contents of
the character classes except through executable evaluation on concrete
ASCII inputs.
-/

/-- Word character for the `\b` assertion: ASCII alphanumerics, underscore,
and the Latin-1 letters (Python treats all Unicode letters/digits as word
characters; the catalog only ever meets ASCII and `Ñ`/`ñ`). -/
def isWordChar (c : Char) : Bool :=
  ('a' ≤ c && c ≤ 'z') || ('A' ≤ c && c ≤ 'Z') || ('0' ≤ c && c ≤ '9') || c == '_'
  || (0xC0 ≤ c.val && c.val ≤ 0xFF && c != '×' && c != '÷')
  || c == 'ª' || c == 'µ' || c == 'º'

/-- One atom of a bracket character class. -/
inductive CAtom where
  | rng (lo hi : Char)
  | chr (c : Char)
  | dig
  | wsp
deriving DecidableEq

/-- Membership of a character in a class atom.  `dig` is `\d`, `wsp` is `\s`
(ASCII whitespace). -/
def catomMem (a : CAtom) (c : Char) : Bool :=
  match a with
  | .rng lo hi => lo ≤ c && c ≤ hi
  | .chr d => c == d
  | .dig => '0' ≤ c && c ≤ '9'
  | .wsp => c == ' ' || c == '\t' || c == '\n' || c == '\r' || c.val == 11 || c.val == 12

/-- Regular expression syntax: empty word, a one-character class, the `\b`
word-boundary assertion, concatenation and (left-priority) alternation.
Bounded repetition `{m,n}`, `?` and literal characters are compiled away by
the smart constructors below, exactly preserving greedy backtracking
priority. -/
inductive RE where
  | eps
  | cls (atoms : List CAtom)
  | bnd
  | seq (a b : RE)
  | alt (a b : RE)
deriving DecidableEq

/-- Concatenation of a list of regexes. -/
def rcat (l : List RE) : RE := l.foldr RE.seq RE.eps

/-- Exactly `n` copies of `r` (the `{n}` quantifier). -/
def exa (r : RE) : Nat → RE
  | 0 => RE.eps
  | n + 1 => RE.seq r (exa r n)

/-- At most `n` copies of `r`, greedily preferring more copies
(the `{0,n}` quantifier; `upto r 1` is `r?`). -/
def upto (r : RE) : Nat → RE
  | 0 => RE.eps
  | n + 1 => RE.alt (RE.seq r (upto r n)) RE.eps

/-- The `{m,n}` bounded quantifier, greedy. -/
def btw (r : RE) (m n : Nat) : RE := RE.seq (exa r m) (upto r (n - m))

/-- The `?` quantifier, greedy. -/
def opt (r : RE) : RE := upto r 1

/-- A single mandatory character class. -/
def cls1 (a : CAtom) : RE := RE.cls [a]

/-- A case-insensitive literal letter (the compiled form of a letter under
`re.IGNORECASE`): matches either of the two given characters. -/
def ci2 (a b : Char) : RE := RE.cls [CAtom.chr a, CAtom.chr b]

/-- A literal (case-less) character such as `-` or a digit. -/
def lch (c : Char) : RE := RE.cls [CAtom.chr c]

/-- The class `\d`. -/
def dgt : RE := cls1 CAtom.dig

/-- The class `\s`. -/
def wspC : RE := cls1 CAtom.wsp

/-- The class `[-\s]` (also used for the `(?:[-\s])` groups of the second
catalog, which match the same single characters). -/
def sepDS : RE := RE.cls [CAtom.chr '-', CAtom.wsp]

/-- The class `[.\s-]`. -/
def sepPSD : RE := RE.cls [CAtom.chr '.', CAtom.wsp, CAtom.chr '-']

/-- The class `[- ]`. -/
def sepDSp : RE := RE.cls [CAtom.chr '-', CAtom.chr ' ']

/-- The class `[A-Z]` under IGNORECASE. -/
def letAZ : RE := RE.cls [CAtom.rng 'A' 'Z', CAtom.rng 'a' 'z']

/-- The class `[A-ZÑ&]` under IGNORECASE. -/
def letAZN : RE := RE.cls [CAtom.rng 'A' 'Z', CAtom.rng 'a' 'z',
  CAtom.chr 'Ñ', CAtom.chr 'ñ', CAtom.chr '&']

/-- The class `[A-Z0-9]` under IGNORECASE. -/
def alnumC : RE := RE.cls [CAtom.rng 'A' 'Z', CAtom.rng 'a' 'z', CAtom.dig]

/-- The class `[HM]` under IGNORECASE. -/
def clsHM : RE := RE.cls [CAtom.chr 'H', CAtom.chr 'h', CAtom.chr 'M', CAtom.chr 'm']

/-- The class `[\dkK]` under IGNORECASE. -/
def clsDKK : RE := RE.cls [CAtom.dig, CAtom.chr 'k', CAtom.chr 'K']

/-- The class `[JGVEP]` under IGNORECASE. -/
def clsJGVEP : RE := RE.cls [CAtom.chr 'J', CAtom.chr 'j', CAtom.chr 'G', CAtom.chr 'g',
  CAtom.chr 'V', CAtom.chr 'v', CAtom.chr 'E', CAtom.chr 'e', CAtom.chr 'P', CAtom.chr 'p']

/-- The class `[VvEe]`. -/
def clsVE : RE := RE.cls [CAtom.chr 'V', CAtom.chr 'v', CAtom.chr 'E', CAtom.chr 'e']

/-- The class `[Cc]`. -/
def clsCc : RE := ci2 'C' 'c'

namespace Pat

/-- CI_NIC, raw pattern: \b\d{3}[-\s]\d{6}[-\s]\d{4}[A-Z]?\b -/
def CI_NIC : RE :=
  rcat [RE.bnd, exa dgt 3, sepDS, exa dgt 6, sepDS, exa dgt 4, opt letAZ, RE.bnd]

/-- RUC_NIC, raw pattern: \b\d{3}[-\s]\d{6}[-\s]\d{4}[A-Z]?\b  (textually
identical to CI_NIC in the source). -/
def RUC_NIC : RE :=
  rcat [RE.bnd, exa dgt 3, sepDS, exa dgt 6, sepDS, exa dgt 4, opt letAZ, RE.bnd]

/-- CPF_BRA: \b\d{3}[.\s-]\d{3}[.\s-]\d{3}[.\s-]\d{2}\b -/
def CPF_BRA : RE :=
  rcat [RE.bnd, exa dgt 3, sepPSD, exa dgt 3, sepPSD, exa dgt 3, sepPSD, exa dgt 2, RE.bnd]

/-- DPI_GTM: \b\d{4}\s\d{5}\s\d{4}\b -/
def DPI_GTM : RE :=
  rcat [RE.bnd, exa dgt 4, wspC, exa dgt 5, wspC, exa dgt 4, RE.bnd]

/-- CURP_MEX: \b[A-Z]{4}-?\d{6}-?[HM][A-Z]{5}[A-Z0-9]\b -/
def CURP_MEX : RE :=
  rcat [RE.bnd, exa letAZ 4, opt (lch '-'), exa dgt 6, opt (lch '-'),
    clsHM, exa letAZ 5, alnumC, RE.bnd]

/-- RFC_MEX: \b[A-ZÑ&]{3,4}-?\d{6}-?[A-Z0-9]{3}\b -/
def RFC_MEX : RE :=
  rcat [RE.bnd, btw letAZN 3 4, opt (lch '-'), exa dgt 6, opt (lch '-'), exa alnumC 3, RE.bnd]

/-- RIF_VEN: \b[JGVEP][- ]\d{8}[- ]\d\b -/
def RIF_VEN : RE :=
  rcat [RE.bnd, clsJGVEP, sepDSp, exa dgt 8, sepDSp, dgt, RE.bnd]

/-- CI_BOL: \b\d{6,8}[-\s][A-Z]{2}\b -/
def CI_BOL : RE :=
  rcat [RE.bnd, btw dgt 6 8, sepDS, exa letAZ 2, RE.bnd]

/-- RUC_PRY: \b\d{6,8}[A-Z]?[-\s]\d\b -/
def RUC_PRY : RE :=
  rcat [RE.bnd, btw dgt 6 8, opt letAZ, sepDS, dgt, RE.bnd]

/-- CUIT_ARG: \b\d{2}[.\s-]\d{8}[.\s-]\d\b -/
def CUIT_ARG : RE :=
  rcat [RE.bnd, exa dgt 2, sepPSD, exa dgt 8, sepPSD, dgt, RE.bnd]

/-- CI_URU: \b\d{1,2}[.\s-]\d{3}[.\s-]\d{3}[.\s-]\d\b -/
def CI_URU : RE :=
  rcat [RE.bnd, btw dgt 1 2, sepPSD, exa dgt 3, sepPSD, exa dgt 3, sepPSD, dgt, RE.bnd]

/-- RUT_CHI: \b\d{1,2}[.\s-]\d{3}[.\s-]\d{3}[.\s-]?[\dkK]\b -/
def RUT_CHI : RE :=
  rcat [RE.bnd, btw dgt 1 2, sepPSD, exa dgt 3, sepPSD, exa dgt 3, opt sepPSD, clsDKK, RE.bnd]

/-- CI_VEN: \b[VvEe][- ]\d{6,8}\b -/
def CI_VEN : RE :=
  rcat [RE.bnd, clsVE, sepDSp, btw dgt 6 8, RE.bnd]

/-- PAS_ARG: \bAA[-\s]\d{7}\b -/
def PAS_ARG : RE :=
  rcat [RE.bnd, ci2 'A' 'a', ci2 'A' 'a', sepDS, exa dgt 7, RE.bnd]

/-- PAS_CHI: \b[Cc]-\d{8}\b -/
def PAS_CHI : RE :=
  rcat [RE.bnd, clsCc, lch '-', exa dgt 8, RE.bnd]

/-- PAS_MEX: \bG-\d{8}\b -/
def PAS_MEX : RE :=
  rcat [RE.bnd, ci2 'G' 'g', lch '-', exa dgt 8, RE.bnd]

/-- ID_HTI: \b\d{2}[-\s]\d{2}[-\s]\d{2}[-\s]\d{5}\b -/
def ID_HTI : RE :=
  rcat [RE.bnd, exa dgt 2, sepDS, exa dgt 2, sepDS, exa dgt 2, sepDS, exa dgt 5, RE.bnd]

/-- CI_CRI: \bCR[-\s]?\d[-\s]?\d{4}[-\s]?\d{4}\b -/
def CI_CRI : RE :=
  rcat [RE.bnd, clsCc, ci2 'R' 'r', opt sepDS, dgt, opt sepDS, exa dgt 4, opt sepDS,
    exa dgt 4, RE.bnd]

/-- CI_CUB: \bCUB[-\s]?\d{6}[-\s]?\d{5}\b -/
def CI_CUB : RE :=
  rcat [RE.bnd, clsCc, ci2 'U' 'u', ci2 'B' 'b', opt sepDS, exa dgt 6, opt sepDS,
    exa dgt 5, RE.bnd]

/-- NIT_BOL: \bBO[-\s]?\d{6,8}[-\s]?\d\b -/
def NIT_BOL : RE :=
  rcat [RE.bnd, ci2 'B' 'b', ci2 'O' 'o', opt sepDS, btw dgt 6 8, opt sepDS, dgt, RE.bnd]

/-- NIT_COL: \bCOL[-\s]?\d{8,10}-\d\b -/
def NIT_COL : RE :=
  rcat [RE.bnd, clsCc, ci2 'O' 'o', ci2 'L' 'l', opt sepDS, btw dgt 8 10, lch '-',
    dgt, RE.bnd]

/-- NIT_GTM: \bGT[-\s]?\d{6,8}[-\s]?\d\b -/
def NIT_GTM : RE :=
  rcat [RE.bnd, ci2 'G' 'g', ci2 'T' 't', opt sepDS, btw dgt 6 8, opt sepDS, dgt, RE.bnd]

/-- NIT_SLV: \bSV[-\s]?\d{4}[-\s]?\d{6}[-\s]?\d{3}[-\s]?\d\b -/
def NIT_SLV : RE :=
  rcat [RE.bnd, ci2 'S' 's', ci2 'V' 'v', opt sepDS, exa dgt 4, opt sepDS, exa dgt 6,
    opt sepDS, exa dgt 3, opt sepDS, dgt, RE.bnd]

/-- RNC_DOM: \bRD[-\s]?\d[-\s]?\d{2}[-\s]?\d{5}[-\s]?\d\b -/
def RNC_DOM : RE :=
  rcat [RE.bnd, ci2 'R' 'r', ci2 'D' 'd', opt sepDS, dgt, opt sepDS, exa dgt 2,
    opt sepDS, exa dgt 5, opt sepDS, dgt, RE.bnd]

/-- RTN_HND: \bHN[-\s]?\d{4}[-\s]?\d{4}[-\s]?\d{5}\b -/
def RTN_HND : RE :=
  rcat [RE.bnd, ci2 'H' 'h', ci2 'N' 'n', opt sepDS, exa dgt 4, opt sepDS, exa dgt 4,
    opt sepDS, exa dgt 5, RE.bnd]

/-- RUC_ECU: \bEC[-\s]?\d{10}[-\s]?\d{3}\b -/
def RUC_ECU : RE :=
  rcat [RE.bnd, ci2 'E' 'e', clsCc, opt sepDS, exa dgt 10, opt sepDS, exa dgt 3, RE.bnd]

/-- RUC_PAN: \bP[-\s]?\d{1,4}[-\s]?\d{1,4}[-\s]?\d{1,4}\b -/
def RUC_PAN : RE :=
  rcat [RE.bnd, ci2 'P' 'p', opt sepDS, btw dgt 1 4, opt sepDS, btw dgt 1 4,
    opt sepDS, btw dgt 1 4, RE.bnd]

/-- RUC_PER: \bPE[-\s]?(10|15|16|17|20)\d{8}\b  (the group alternatives are
tried left to right). -/
def RUC_PER : RE :=
  rcat [RE.bnd, ci2 'P' 'p', ci2 'E' 'e', opt sepDS,
    RE.alt (rcat [lch '1', lch '0'])
      (RE.alt (rcat [lch '1', lch '5'])
        (RE.alt (rcat [lch '1', lch '6'])
          (RE.alt (rcat [lch '1', lch '7']) (rcat [lch '2', lch '0'])))),
    exa dgt 8, RE.bnd]

end Pat

/-- The compiled pattern list of `src/filter_ID.py` / `src/full_anon.py`
(`PATTERNS`, the values of `RAW_PATTERNS` in insertion order). -/
def PATTERNS : List RE :=
  [Pat.CI_NIC, Pat.RUC_NIC, Pat.CPF_BRA, Pat.DPI_GTM, Pat.CURP_MEX, Pat.RFC_MEX,
   Pat.RIF_VEN, Pat.CI_BOL, Pat.RUC_PRY, Pat.CUIT_ARG, Pat.CI_URU, Pat.RUT_CHI,
   Pat.CI_VEN, Pat.PAS_ARG, Pat.PAS_CHI, Pat.PAS_MEX, Pat.ID_HTI, Pat.CI_CRI,
   Pat.CI_CUB, Pat.NIT_BOL, Pat.NIT_COL, Pat.NIT_GTM, Pat.NIT_SLV, Pat.RNC_DOM,
   Pat.RTN_HND, Pat.RUC_ECU, Pat.RUC_PAN, Pat.RUC_PER]

namespace OPat

/-- NIT_SLV v2: \b\d{4}(?:[-\s])\d{6}(?:[-\s])\d{3}(?:[-\s])\d\b -/
def NIT_SLV : RE :=
  rcat [RE.bnd, exa dgt 4, sepDS, exa dgt 6, sepDS, exa dgt 3, sepDS, dgt, RE.bnd]

/-- RNC_DOM v2: \b\d{1}(?:[-\s])\d{2}(?:[-\s])\d{5}(?:[-\s])\d\b -/
def RNC_DOM : RE :=
  rcat [RE.bnd, dgt, sepDS, exa dgt 2, sepDS, exa dgt 5, sepDS, dgt, RE.bnd]

/-- RTN_HND v2: \b\d{4}(?:[-\s])\d{4}(?:[-\s])\d{5}\b -/
def RTN_HND : RE :=
  rcat [RE.bnd, exa dgt 4, sepDS, exa dgt 4, sepDS, exa dgt 5, RE.bnd]

/-- CI_NIC v2: \b\d{3}(?:[-\s])\d{6}(?:[-\s])\d{4}[A-Z]?\b -/
def CI_NIC : RE :=
  rcat [RE.bnd, exa dgt 3, sepDS, exa dgt 6, sepDS, exa dgt 4, opt letAZ, RE.bnd]

/-- RUC_NIC v2: \b\d{3}(?:[-\s])\d{6}(?:[-\s])\d{4}[A-Z]?\b  (textually
identical to CI_NIC v2 in the source). -/
def RUC_NIC : RE :=
  rcat [RE.bnd, exa dgt 3, sepDS, exa dgt 6, sepDS, exa dgt 4, opt letAZ, RE.bnd]

/-- RUC_ECU v2: \b\d{10}(?:[-\s])\d{3}\b -/
def RUC_ECU : RE :=
  rcat [RE.bnd, exa dgt 10, sepDS, exa dgt 3, RE.bnd]

/-- CIE_DOM: \b\d{3}(?:[-\s])\d{7}(?:[-\s])\d\b -/
def CIE_DOM : RE :=
  rcat [RE.bnd, exa dgt 3, sepDS, exa dgt 7, sepDS, dgt, RE.bnd]

/-- CPF_BRA v2: \b\d{3}(?:[.\s-])\d{3}(?:[.\s-])\d{3}(?:[.\s-])\d{2}\b -/
def CPF_BRA : RE :=
  rcat [RE.bnd, exa dgt 3, sepPSD, exa dgt 3, sepPSD, exa dgt 3, sepPSD, exa dgt 2, RE.bnd]

/-- RUC_PAN v2: \b\d{1,4}(?:[-\s])\d{1,4}(?:[-\s])\d{1,4}\b -/
def RUC_PAN : RE :=
  rcat [RE.bnd, btw dgt 1 4, sepDS, btw dgt 1 4, sepDS, btw dgt 1 4, RE.bnd]

/-- CI_CUB v2: \b\d{6}(?:[-\s])\d{5}\b -/
def CI_CUB : RE :=
  rcat [RE.bnd, exa dgt 6, sepDS, exa dgt 5, RE.bnd]

/-- CI_CRI v2: \b\d{1}(?:[-\s])\d{4}(?:[-\s])\d{4}\b -/
def CI_CRI : RE :=
  rcat [RE.bnd, dgt, sepDS, exa dgt 4, sepDS, exa dgt 4, RE.bnd]

/-- DPI_GTM v2: \b\d{4}\s\d{5}\s\d{4}\b -/
def DPI_GTM : RE :=
  rcat [RE.bnd, exa dgt 4, wspC, exa dgt 5, wspC, exa dgt 4, RE.bnd]

/-- CURP_MEX v2: \b[A-Z]{4}[-]?\d{6}[-]?[HM][A-Z]{5}[A-Z0-9]\b -/
def CURP_MEX : RE :=
  rcat [RE.bnd, exa letAZ 4, opt (lch '-'), exa dgt 6, opt (lch '-'),
    clsHM, exa letAZ 5, alnumC, RE.bnd]

/-- RFC_MEX v2: \b[A-ZÑ&]{3,4}[-]?\d{6}[-]?[A-Z0-9]{3}\b -/
def RFC_MEX : RE :=
  rcat [RE.bnd, btw letAZN 3 4, opt (lch '-'), exa dgt 6, opt (lch '-'), exa alnumC 3, RE.bnd]

/-- RIF_VEN v2: \b[JGVEP](?:[-\s])\d{8}(?:[-\s])\d\b -/
def RIF_VEN : RE :=
  rcat [RE.bnd, clsJGVEP, sepDS, exa dgt 8, sepDS, dgt, RE.bnd]

/-- CI_BOL v2: \b\d{6,8}(?:[-\s])[A-Z]{2}\b -/
def CI_BOL : RE :=
  rcat [RE.bnd, btw dgt 6 8, sepDS, exa letAZ 2, RE.bnd]

/-- RUC_PRY v2: \b\d{6,8}[A-Z]?(?:[-\s])\d\b -/
def RUC_PRY : RE :=
  rcat [RE.bnd, btw dgt 6 8, opt letAZ, sepDS, dgt, RE.bnd]

/-- CUIT_ARG v2: \b\d{2}[.\s-]\d{8}[.\s-]\d\b -/
def CUIT_ARG : RE :=
  rcat [RE.bnd, exa dgt 2, sepPSD, exa dgt 8, sepPSD, dgt, RE.bnd]

/-- NIT_COL v2: \b\d{8,10}-\d\b -/
def NIT_COL : RE :=
  rcat [RE.bnd, btw dgt 8 10, lch '-', dgt, RE.bnd]

/-- CI_URU v2: \b\d{1,2}[.\s-]\d{3}[.\s-]\d{3}[.\s-]\d\b -/
def CI_URU : RE :=
  rcat [RE.bnd, btw dgt 1 2, sepPSD, exa dgt 3, sepPSD, exa dgt 3, sepPSD, dgt, RE.bnd]

/-- RUT_CHI v2: \b\d{1,2}[.\s-]\d{3}[.\s-]\d{3}[.\s-]?[\dkK]\b -/
def RUT_CHI : RE :=
  rcat [RE.bnd, btw dgt 1 2, sepPSD, exa dgt 3, sepPSD, exa dgt 3, opt sepPSD, clsDKK, RE.bnd]

/-- CI_VEN v2: \b[VvEe](?:[-\s])\d{6,8}\b -/
def CI_VEN : RE :=
  rcat [RE.bnd, clsVE, sepDS, btw dgt 6 8, RE.bnd]

/-- PAS_ARG v2: \bAA(?:[-\s])\d{7}\b -/
def PAS_ARG : RE :=
  rcat [RE.bnd, ci2 'A' 'a', ci2 'A' 'a', sepDS, exa dgt 7, RE.bnd]

/-- PAS_CHI v2: \b[Cc](?:[-\s])\d{8}\b -/
def PAS_CHI : RE :=
  rcat [RE.bnd, clsCc, sepDS, exa dgt 8, RE.bnd]

/-- PAS_MEX v2: \bG(?:[-\s])\d{8}\b -/
def PAS_MEX : RE :=
  rcat [RE.bnd, ci2 'G' 'g', sepDS, exa dgt 8, RE.bnd]

/-- NIT_GTM v2: \b\d{6,8}(?:[-\s])\d\b -/
def NIT_GTM : RE :=
  rcat [RE.bnd, btw dgt 6 8, sepDS, dgt, RE.bnd]

/-- NIT_BOL v2: \b\d{6,8}(?:[-\s])\d\b -/
def NIT_BOL : RE :=
  rcat [RE.bnd, btw dgt 6 8, sepDS, dgt, RE.bnd]

/-- ID_HTI v2: \b\d{2}(?:[-\s])\d{2}(?:[-\s])\d{2}(?:[-\s])\d{5}\b -/
def ID_HTI : RE :=
  rcat [RE.bnd, exa dgt 2, sepDS, exa dgt 2, sepDS, exa dgt 2, sepDS, exa dgt 5, RE.bnd]

end OPat

/-- The pattern dictionary `ordered_regex_patterns` of
`dataset_filter_ID.py` / `src/text_filter_ID.py`, values in insertion
order. -/
def ordered_regex_patterns : List RE :=
  [OPat.NIT_SLV, OPat.RNC_DOM, OPat.RTN_HND, OPat.CI_NIC, OPat.RUC_NIC,
   OPat.RUC_ECU, OPat.CIE_DOM, OPat.CPF_BRA, OPat.RUC_PAN, OPat.CI_CUB,
   OPat.CI_CRI, OPat.DPI_GTM, OPat.CURP_MEX, OPat.RFC_MEX, OPat.RIF_VEN,
   OPat.CI_BOL, OPat.RUC_PRY, OPat.CUIT_ARG, OPat.NIT_COL, OPat.CI_URU,
   OPat.RUT_CHI, OPat.CI_VEN, OPat.PAS_ARG, OPat.PAS_CHI, OPat.PAS_MEX,
   OPat.NIT_GTM, OPat.NIT_BOL, OPat.ID_HTI]

/-- Is the character at position `i` of `t` a word character
(out-of-range counts as non-word)? -/
def wordAt (t : List Char) (i : Nat) : Bool :=
  match t[i]? with
  | some c => isWordChar c
  | none => false

/-- The `\b` assertion holds at position `i`: exactly one of the adjacent
characters is a word character. -/
def wordBoundary (t : List Char) (i : Nat) : Bool :=
  (if i = 0 then false else wordAt t (i - 1)) != wordAt t i

/-- All end positions of matches of `re` in `t` starting at position `i`,
in the priority order of a backtracking engine (first element = the end
position Python's `re` reports for a match anchored at `i`). -/
def ends : RE → List Char → Nat → List Nat
  | RE.eps, _, i => [i]
  | RE.cls atoms, t, i =>
    match t[i]? with
    | some c => if atoms.any (fun a => catomMem a c) then [i + 1] else []
    | none => []
  | RE.bnd, t, i => if wordBoundary t i then [i] else []
  | RE.seq a b, t, i => (ends a t i).flatMap (fun j => ends b t j)
  | RE.alt a b, t, i => ends a t i ++ ends b t i

/-- The scanning loop of `re.finditer`: try to match at position `i`; on a
match emit its span and resume at its end (or one further for an empty
match), otherwise advance one position.  `fuel` bounds the number of scan
steps; it is always called with enough fuel to reach the end of `t`. -/
def finditerGo (re : RE) (t : List Char) : Nat → Nat → List (Nat × Nat)
  | _, 0 => []
  | i, fuel + 1 =>
    if t.length < i then []
    else
      match ends re t i with
      | [] => finditerGo re t (i + 1) fuel
      | e :: _ => (i, e) :: finditerGo re t (if i < e then e else i + 1) fuel

/-- All spans `m.span()` for `m in re.finditer(pattern, text)`. -/
def finditer (re : RE) (t : List Char) : List (Nat × Nat) :=
  finditerGo re t 0 (t.length + 1)

/-- Span collection of `replace_identifiers` / `reemplazar_identificadores`:
for each pattern in order, extend the list with all of its match spans. -/
def collectSpans (pats : List RE) (t : List Char) : List (Nat × Nat) :=
  pats.flatMap (fun p => finditer p t)

/-- Python `str.ljust`: pad on the right with spaces to length `n`
(a longer string is returned unchanged). -/
def ljust (s : List Char) (n : Nat) : List Char :=
  s ++ List.replicate (n - s.length) ' '

/-- Python slice assignment `chars[s:e] = repl` (for `e < s` Python inserts
at `s`, hence the `max`). -/
def spliceAssign (xs : List Char) (s e : Nat) (repl : List Char) : List Char :=
  xs.take s ++ repl ++ xs.drop (max s e)

/-- Python `any(occupied[s:e])`. -/
def anyOccupied (occ : List Bool) (s e : Nat) : Bool :=
  ((occ.drop s).take (e - s)).any (fun b => b)

/-- The loop `for i in range(s, e): occ[i] = True` (counting variant). -/
def markRangeGo (occ : List Bool) (i : Nat) : Nat → List Bool
  | 0 => occ
  | n + 1 => markRangeGo (occ.set i true) (i + 1) n

/-- Python `for i in range(s, e): occupied[i] = True`. -/
def markRange (occ : List Bool) (s e : Nat) : List Bool :=
  markRangeGo occ s (e - s)

/-- The sort key comparison of `spans.sort(key=lambda s: (-(s[1]-s[0]), s[0]))`:
longer spans first, ties by ascending start offset. -/
def spanLE (a b : Nat × Nat) : Bool :=
  (b.2 - b.1 < a.2 - a.1) || ((a.2 - a.1 == b.2 - b.1) && a.1 ≤ b.1)

/-- One iteration of the replacement loop of `replace_identifiers`:
skip the span if any position in it is occupied, otherwise splice in the
left-justified label (NOT truncated to the span width) and mark the span
occupied. -/
def stepApply (label : List Char) (st : List Char × List Bool) (sp : Nat × Nat) :
    List Char × List Bool :=
  if anyOccupied st.2 sp.1 sp.2 then st
  else (spliceAssign st.1 sp.1 sp.2 (ljust label (sp.2 - sp.1)),
        markRange st.2 sp.1 sp.2)

/-- One iteration of the replacement loop of `reemplazar_identificadores`
(`dataset_filter_ID.py`), which truncates the padded label to the span
width (`reemplazo[:end - start]`). -/
def stepApplyTrunc (label : List Char) (st : List Char × List Bool) (sp : Nat × Nat) :
    List Char × List Bool :=
  if anyOccupied st.2 sp.1 sp.2 then st
  else (spliceAssign st.1 sp.1 sp.2 ((ljust label (sp.2 - sp.1)).take (sp.2 - sp.1)),
        markRange st.2 sp.1 sp.2)

/-- Stable insertion of a span into a list sorted by `spanLE` (a span with
an equal key goes in front of later arrivals, matching the stability of
Python's `list.sort`). -/
def insertSpan (sp : Nat × Nat) : List (Nat × Nat) → List (Nat × Nat)
  | [] => [sp]
  | q :: rest => if spanLE sp q then sp :: q :: rest else q :: insertSpan sp rest

/-- `spans.sort(key=lambda s: (-(s[1]-s[0]), s[0]))`: Python's stable sort,
modelled as stable insertion sort, which computes the same list. -/
def sortSpans (l : List (Nat × Nat)) : List (Nat × Nat) :=
  l.foldr insertSpan []

/-- The body of `replace_identifiers` after span collection: early return on
an empty span list, sort, then the replacement loop over
`(chars, occupied)`. -/
def resolveSpans (spans : List (Nat × Nat)) (text label : List Char) : List Char :=
  if spans.isEmpty then text
  else ((sortSpans spans).foldl (stepApply label)
    (text, List.replicate text.length false)).1

/-- `replace_identifiers` generalized over the pattern list it scans with
(the source reads the module-level constant `PATTERNS`). -/
def replaceWithPats (pats : List RE) (text label : List Char) : List Char :=
  resolveSpans (collectSpans pats text) text label

/-- `replace_identifiers(text, label)` of `src/filter_ID.py` /
`src/full_anon.py`. -/
def replace_identifiers (text label : List Char) : List Char :=
  replaceWithPats PATTERNS text label

/-- The default label `"<ID>"`. -/
def idLabel : List Char := "<ID>".toList

/-- `reemplazar_identificadores(texto)` of `dataset_filter_ID.py` /
`src/text_filter_ID.py`: catalog `ordered_regex_patterns`, hard-coded label
`"<ID>"`, truncating replacement, and no early return on an empty span
list. -/
def reemplazar_identificadores (texto : List Char) : List Char :=
  ((sortSpans (collectSpans ordered_regex_patterns texto)).foldl
    (stepApplyTrunc idLabel) (texto, List.replicate texto.length false)).1

/-- Minimum number of characters any match of `re` consumes. -/
def minWidth : RE → Nat
  | RE.eps => 0
  | RE.cls _ => 1
  | RE.bnd => 0
  | RE.seq a b => minWidth a + minWidth b
  | RE.alt a b => min (minWidth a) (minWidth b)

/-- The two ranges overlap (share at least one position). -/
def overlapB (a b : Nat × Nat) : Bool :=
  decide (a.1 < b.2) && decide (b.1 < a.2)

/-- Position `i` lies inside the span. -/
def inSpanB (sp : Nat × Nat) (i : Nat) : Bool :=
  decide (sp.1 ≤ i) && decide (i < sp.2)

/-- One step of the selection rule as the specification words it: a span
is discarded if it overlaps any previously accepted span, otherwise
appended to the accepted list. -/
def stepKeep (acc : List (Nat × Nat)) (sp : Nat × Nat) : List (Nat × Nat) :=
  if acc.any (fun q => overlapB sp q) then acc else acc ++ [sp]

/-- The accepted spans of a candidate list, processed in order
(specification-side greedy selection). -/
def specAccept (l : List (Nat × Nat)) : List (Nat × Nat) :=
  l.foldl stepKeep []

/-- The spans a redaction call actually rewrites: greedy selection over the
sorted candidate list. -/
def acceptedSpans (pats : List RE) (t : List Char) : List (Nat × Nat) :=
  specAccept (sortSpans (collectSpans pats t))

/-- Specification-side rewriting: each position inside an accepted span
shows the corresponding character of the space-padded placeholder, each
position outside every accepted span shows the input character. -/
def specRewrite (acc : List (Nat × Nat)) (label t : List Char) : List Char :=
  (List.range t.length).map (fun i =>
    match acc.find? (fun sp => inSpanB sp i) with
    | some sp => (ljust label (sp.2 - sp.1)).getD (i - sp.1) ' '
    | none => t.getD i ' ')

/-- Simulation invariant relating the replacement loop's state
`(chars, occupied)` to the list `acc` of spans accepted so far: every
accepted span is well formed and at least as wide as the label, accepted
spans are pairwise non-overlapping, the occupancy array holds `true`
exactly on positions covered by an accepted span, and the character array
shows the padded label inside accepted spans and the input elsewhere. -/
def SimInv (label t : List Char) (acc : List (Nat × Nat))
    (st : List Char × List Bool) : Prop :=
  (∀ sp ∈ acc, sp.1 < sp.2 ∧ sp.2 ≤ t.length ∧ label.length ≤ sp.2 - sp.1) ∧
  List.Pairwise (fun a b => overlapB a b = false) acc ∧
  st.2.length = t.length ∧
  (∀ j, st.2[j]? = if j < t.length then
    some (acc.any (fun sp => inSpanB sp j)) else none) ∧
  st.1.length = t.length ∧
  (∀ j, st.1[j]? =
    match acc.find? (fun sp => inSpanB sp j) with
    | some sp => (ljust label (sp.2 - sp.1))[j - sp.1]?
    | none => t[j]?)

/-! ### Bounds on match spans -/

/-- Every end position reported by `ends` consumes at least `minWidth re`
characters. -/
theorem ends_ge_minWidth (re : RE) (t : List Char) :
    ∀ i e, e ∈ ends re t i → i + minWidth re ≤ e := by
  induction re with
  | eps => intro i e he; simp [ends] at he; simp [he, minWidth]
  | cls atoms =>
    intro i e he
    simp only [ends] at he
    cases ht : t[i]? with
    | none => rw [ht] at he; simp at he
    | some c =>
      rw [ht] at he
      by_cases hm : atoms.any (fun a => catomMem a c) = true
      · simp [hm] at he; simp [he, minWidth]
      · simp [hm] at he
  | bnd =>
    intro i e he
    simp only [ends] at he
    by_cases hw : wordBoundary t i = true
    · simp [hw] at he; simp [he, minWidth]
    · simp [hw] at he
  | seq a b iha ihb =>
    intro i e he
    simp only [ends, List.mem_flatMap] at he
    obtain ⟨j, hj, hej⟩ := he
    have h1 := iha i j hj
    have h2 := ihb j e hej
    simp only [minWidth]; omega
  | alt a b iha ihb =>
    intro i e he
    simp only [ends, List.mem_append] at he
    rcases he with h | h
    · have := iha i e h; simp only [minWidth]; omega
    · have := ihb i e h; simp only [minWidth]; omega

/-- End positions reported by `ends` stay inside the text. -/
theorem ends_bounds (re : RE) (t : List Char) :
    ∀ i e, e ∈ ends re t i → i ≤ t.length → i ≤ e ∧ e ≤ t.length := by
  induction re with
  | eps => intro i e he hi; simp [ends] at he; omega
  | cls atoms =>
    intro i e he hi
    simp only [ends] at he
    cases ht : t[i]? with
    | none => rw [ht] at he; simp at he
    | some c =>
      rw [ht] at he
      have hlt : i < t.length := by
        by_contra hge
        rw [List.getElem?_eq_none (by omega)] at ht
        exact Option.noConfusion ht
      by_cases hm : atoms.any (fun a => catomMem a c) = true
      · simp [hm] at he; omega
      · simp [hm] at he
  | bnd =>
    intro i e he hi
    simp only [ends] at he
    by_cases hw : wordBoundary t i = true
    · simp [hw] at he; omega
    · simp [hw] at he
  | seq a b iha ihb =>
    intro i e he hi
    simp only [ends, List.mem_flatMap] at he
    obtain ⟨j, hj, hej⟩ := he
    obtain ⟨h1, h2⟩ := iha i j hj hi
    obtain ⟨h3, h4⟩ := ihb j e hej h2
    omega
  | alt a b iha ihb =>
    intro i e he hi
    simp only [ends, List.mem_append] at he
    rcases he with h | h
    · exact iha i e h hi
    · exact ihb i e h hi

/-- Spans emitted by the scanner start inside the text and end at a
position reported by `ends` for their start. -/
theorem finditerGo_mem (re : RE) (t : List Char) :
    ∀ fuel i sp, sp ∈ finditerGo re t i fuel →
      sp.1 ≤ t.length ∧ sp.2 ∈ ends re t sp.1 := by
  intro fuel
  induction fuel with
  | zero => intro i sp h; simp [finditerGo] at h
  | succ n ih =>
    intro i sp h
    simp only [finditerGo] at h
    by_cases hi : t.length < i
    · simp [hi] at h
    · rw [if_neg hi] at h
      cases he : ends re t i with
      | nil => rw [he] at h; exact ih _ sp h
      | cons e rest =>
        rw [he] at h
        rcases List.mem_cons.mp h with h1 | h1
        · subst h1
          refine ⟨by omega, ?_⟩
          rw [he]; exact List.mem_cons_self e rest
        · exact ih _ sp h1

/-- Spans of `finditer`. -/
theorem finditer_mem {re : RE} {t : List Char} {sp : Nat × Nat}
    (h : sp ∈ finditer re t) : sp.1 ≤ t.length ∧ sp.2 ∈ ends re t sp.1 :=
  finditerGo_mem re t _ 0 sp h

/-- Every collected span comes from the `finditer` run of one of the
patterns. -/
theorem collectSpans_mem {pats : List RE} {t : List Char} {sp : Nat × Nat}
    (h : sp ∈ collectSpans pats t) : ∃ p ∈ pats, sp ∈ finditer p t := by
  simpa [collectSpans, List.mem_flatMap] using h

/-- Collected spans are well formed: they start no later than they end and
end within the text. -/
theorem collectSpans_wf {pats : List RE} {t : List Char} {sp : Nat × Nat}
    (h : sp ∈ collectSpans pats t) : sp.1 ≤ sp.2 ∧ sp.2 ≤ t.length := by
  obtain ⟨p, _, hf⟩ := collectSpans_mem h
  obtain ⟨h1, h2⟩ := finditer_mem hf
  exact ends_bounds p t sp.1 sp.2 h2 h1

/-- Collected spans are at least as wide as the smallest `minWidth` of the
catalog. -/
theorem collectSpans_width {pats : List RE} {t : List Char} {sp : Nat × Nat} {k : Nat}
    (h : sp ∈ collectSpans pats t) (hk : ∀ p ∈ pats, k ≤ minWidth p) :
    sp.1 + k ≤ sp.2 := by
  obtain ⟨p, hp, hf⟩ := collectSpans_mem h
  have h2 := (finditer_mem hf).2
  have := ends_ge_minWidth p t sp.1 sp.2 h2
  have := hk p hp
  omega

/-- Every pattern of the `filter_ID.py` catalog consumes at least 4
characters (the narrowest is RUC_PAN with minimum width 4). -/
theorem PATTERNS_minWidth : ∀ p ∈ PATTERNS, 4 ≤ minWidth p := by decide

/-- Every pattern of the `ordered_regex_patterns` catalog consumes at least
4 characters (the narrowest is RUC_PAN v2 with minimum width 5). -/
theorem ordered_minWidth : ∀ p ∈ ordered_regex_patterns, 4 ≤ minWidth p := by decide

/-- Spans collected from the `filter_ID.py` catalog have width at least 4
and fit in the text. -/
theorem collect_wf_PATTERNS {t : List Char} {sp : Nat × Nat}
    (h : sp ∈ collectSpans PATTERNS t) : sp.1 + 4 ≤ sp.2 ∧ sp.2 ≤ t.length :=
  ⟨collectSpans_width h PATTERNS_minWidth, (collectSpans_wf h).2⟩

/-- Spans collected from the `ordered_regex_patterns` catalog have width at
least 4 and fit in the text. -/
theorem collect_wf_ordered {t : List Char} {sp : Nat × Nat}
    (h : sp ∈ collectSpans ordered_regex_patterns t) :
    sp.1 + 4 ≤ sp.2 ∧ sp.2 ≤ t.length :=
  ⟨collectSpans_width h ordered_minWidth, (collectSpans_wf h).2⟩

/-! ### The sort order -/

/-- Unfolding of the boolean sort comparison. -/
theorem spanLE_iff {a b : Nat × Nat} :
    spanLE a b = true ↔
      (b.2 - b.1 < a.2 - a.1 ∨ (a.2 - a.1 = b.2 - b.1 ∧ a.1 ≤ b.1)) := by
  simp [spanLE, Bool.or_eq_true, Bool.and_eq_true, decide_eq_true_iff]

/-- The comparison is total. -/
theorem spanLE_total (a b : Nat × Nat) : (spanLE a b || spanLE b a) = true := by
  rcases Nat.lt_trichotomy (a.2 - a.1) (b.2 - b.1) with h | h | h
  · simp [spanLE_iff, h]
  · rcases Nat.le_total a.1 b.1 with h1 | h1 <;> simp [spanLE_iff, h, h1]
  · simp [spanLE_iff, h]

/-- The comparison is transitive. -/
theorem spanLE_trans (a b c : Nat × Nat) (h1 : spanLE a b = true)
    (h2 : spanLE b c = true) : spanLE a c = true := by
  rw [spanLE_iff] at h1 h2 ⊢
  omega

/-- On well-formed spans (start ≤ end) the comparison is antisymmetric:
equal width and equal start determine the span. -/
theorem spanLE_antisymm {a b : Nat × Nat} (wa : a.1 ≤ a.2) (wb : b.1 ≤ b.2)
    (h1 : spanLE a b = true) (h2 : spanLE b a = true) : a = b := by
  rw [spanLE_iff] at h1 h2
  have : a.1 = b.1 ∧ a.2 = b.2 := by omega
  exact Prod.ext this.1 this.2

/-- Inserting a span permutes consing it. -/
theorem insertSpan_perm (sp : Nat × Nat) :
    ∀ l : List (Nat × Nat), (insertSpan sp l).Perm (sp :: l) := by
  intro l
  induction l with
  | nil => exact List.Perm.refl _
  | cons q rest ih =>
    unfold insertSpan
    by_cases h : spanLE sp q = true
    · rw [if_pos h]
    · rw [if_neg h]
      exact (ih.cons q).trans (List.Perm.swap sp q rest)

/-- The sorted candidate list is a permutation of the candidate list. -/
theorem sortSpans_perm (l : List (Nat × Nat)) : (sortSpans l).Perm l := by
  induction l with
  | nil => exact List.Perm.refl _
  | cons sp rest ih =>
    exact (insertSpan_perm sp (sortSpans rest)).trans (ih.cons sp)

/-- Insertion preserves sortedness. -/
theorem insertSpan_sorted (sp : Nat × Nat) :
    ∀ l : List (Nat × Nat),
      List.Pairwise (fun a b => spanLE a b = true) l →
      List.Pairwise (fun a b => spanLE a b = true) (insertSpan sp l) := by
  intro l
  induction l with
  | nil => intro _; exact List.pairwise_singleton _ _
  | cons q rest ih =>
    intro hs
    obtain ⟨hq, hrest⟩ := List.pairwise_cons.mp hs
    unfold insertSpan
    by_cases h : spanLE sp q = true
    · rw [if_pos h]
      apply List.pairwise_cons.mpr
      refine ⟨?_, hs⟩
      intro b hb
      rcases List.mem_cons.mp hb with he | he
      · rw [he]; exact h
      · exact spanLE_trans sp q b h (hq b he)
    · rw [if_neg h]
      have hqsp : spanLE q sp = true := by
        have := spanLE_total sp q
        rcases Bool.or_eq_true_iff.mp this with h1 | h1
        · exact absurd h1 h
        · exact h1
      apply List.pairwise_cons.mpr
      refine ⟨?_, ih hrest⟩
      intro b hb
      have hb2 : b ∈ sp :: rest := (insertSpan_perm sp rest).mem_iff.mp hb
      rcases List.mem_cons.mp hb2 with he | he
      · rw [he]; exact hqsp
      · exact hq b he

/-- The sorted candidate list is pairwise ordered by the comparison. -/
theorem sortSpans_sorted (l : List (Nat × Nat)) :
    List.Pairwise (fun a b => spanLE a b = true) (sortSpans l) := by
  induction l with
  | nil => exact List.Pairwise.nil
  | cons sp rest ih => exact insertSpan_sorted sp (sortSpans rest) ih

/-- Two sorted lists of well-formed spans that are permutations of each
other are equal. -/
theorem sorted_perm_eq :
    ∀ (l₁ l₂ : List (Nat × Nat)), l₁.Perm l₂ →
      List.Pairwise (fun a b => spanLE a b = true) l₁ →
      List.Pairwise (fun a b => spanLE a b = true) l₂ →
      (∀ sp ∈ l₁, sp.1 ≤ sp.2) → l₁ = l₂ := by
  intro l₁
  induction l₁ with
  | nil => intro l₂ hp _ _ _; exact (hp.nil_eq).symm ▸ rfl
  | cons a t₁ ih =>
    intro l₂ hp hs₁ hs₂ hwf
    cases l₂ with
    | nil => exact absurd hp.symm.nil_eq (by simp)
    | cons b t₂ =>
      have hab : a = b := by
        by_contra hne
        have ha2 : a ∈ t₂ := by
          have := hp.mem_iff.mp (List.mem_cons_self a t₁)
          rcases List.mem_cons.mp this with h | h
          · exact absurd h hne
          · exact h
        have hb1 : b ∈ t₁ := by
          have := hp.symm.mem_iff.mp (List.mem_cons_self b t₂)
          rcases List.mem_cons.mp this with h | h
          · exact absurd h.symm hne
          · exact h
        have h1 : spanLE a b = true := (List.pairwise_cons.mp hs₁).1 b hb1
        have h2 : spanLE b a = true := (List.pairwise_cons.mp hs₂).1 a ha2
        exact hne (spanLE_antisymm (hwf a (List.mem_cons_self a t₁))
          (hwf b (List.mem_cons_of_mem a hb1)) h1 h2)
      subst hab
      have htp : t₁.Perm t₂ := hp.cons_inv
      have := ih t₂ htp (List.pairwise_cons.mp hs₁).2 (List.pairwise_cons.mp hs₂).2
        (fun sp hsp => hwf sp (List.mem_cons_of_mem a hsp))
      rw [this]

/-- `sortSpans` is the unique sorted permutation (for well-formed spans). -/
theorem sortSpans_eq_of {l m : List (Nat × Nat)} (hp : m.Perm l)
    (hs : List.Pairwise (fun a b => spanLE a b = true) m)
    (hwf : ∀ sp ∈ l, sp.1 ≤ sp.2) : sortSpans l = m :=
  sorted_perm_eq _ _ ((sortSpans_perm l).trans hp.symm) (sortSpans_sorted l) hs
    (fun sp hsp => hwf sp ((sortSpans_perm l).mem_iff.mp hsp))

/-! ### Pointwise characterizations of the mutable state operations -/

/-- Padding preserves or extends the length to `n`. -/
theorem ljust_length (s : List Char) (n : Nat) :
    (ljust s n).length = max s.length n := by
  simp [ljust]; omega

/-- Marking does not change the length of the occupancy array. -/
theorem markRangeGo_length :
    ∀ (n : Nat) (occ : List Bool) (i : Nat),
      (markRangeGo occ i n).length = occ.length := by
  intro n
  induction n with
  | zero => intro occ i; rfl
  | succ m ih => intro occ i; simp [markRangeGo, ih]

/-- Marking does not change the length of the occupancy array. -/
theorem markRange_length (occ : List Bool) (s e : Nat) :
    (markRange occ s e).length = occ.length :=
  markRangeGo_length _ occ s

/-- Pointwise description of the marking loop. -/
theorem markRangeGo_getElem? :
    ∀ (n : Nat) (occ : List Bool) (i j : Nat),
      (markRangeGo occ i n)[j]? =
        if i ≤ j ∧ j < i + n ∧ j < occ.length then some true else occ[j]? := by
  intro n
  induction n with
  | zero =>
    intro occ i j
    simp only [markRangeGo]
    rw [if_neg (by omega)]
  | succ m ih =>
    intro occ i j
    simp only [markRangeGo]
    rw [ih, List.length_set, List.getElem?_set]
    by_cases h2 : i = j
    · subst h2
      rw [if_neg (by omega), if_pos rfl]
      by_cases h3 : i < occ.length
      · rw [if_pos h3, if_pos (by omega)]
      · rw [if_neg h3, if_neg (by omega), List.getElem?_eq_none (by omega)]
    · rw [if_neg h2]
      by_cases h1 : i + 1 ≤ j ∧ j < i + 1 + m ∧ j < occ.length
      · rw [if_pos h1, if_pos (by omega)]
      · rw [if_neg h1, if_neg (by omega)]

/-- Pointwise description of `markRange`. -/
theorem markRange_getElem? (occ : List Bool) (s e j : Nat) :
    (markRange occ s e)[j]? =
      if s ≤ j ∧ j < e ∧ j < occ.length then some true else occ[j]? := by
  unfold markRange
  rw [markRangeGo_getElem?]
  by_cases h : s ≤ j ∧ j < s + (e - s) ∧ j < occ.length
  · rw [if_pos h, if_pos (by omega)]
  · rw [if_neg h, if_neg (by omega)]

/-- `any(occupied[s:e])` holds exactly when some position of `[s, e)` holds
`true`. -/
theorem anyOccupied_iff (occ : List Bool) (s e : Nat) :
    anyOccupied occ s e = true ↔ ∃ j, s ≤ j ∧ j < e ∧ occ[j]? = some true := by
  unfold anyOccupied
  rw [List.any_eq_true]
  constructor
  · rintro ⟨b, hb, hbt⟩
    obtain ⟨k, hk⟩ := List.mem_iff_getElem?.mp hb
    rw [List.getElem?_take] at hk
    by_cases hke : k < e - s
    · rw [if_pos hke, List.getElem?_drop] at hk
      refine ⟨s + k, by omega, by omega, ?_⟩
      have hb2 : b = true := hbt
      rw [hb2] at hk
      exact hk
    · rw [if_neg hke] at hk; exact Option.noConfusion hk
  · rintro ⟨j, h1, h2, h3⟩
    refine ⟨true, ?_, rfl⟩
    apply List.mem_iff_getElem?.mpr
    refine ⟨j - s, ?_⟩
    rw [List.getElem?_take, if_pos (by omega), List.getElem?_drop]
    have hj : s + (j - s) = j := by omega
    rw [hj]
    exact h3

/-- Splicing a replacement of exactly the span width preserves the length. -/
theorem spliceAssign_length {xs repl : List Char} {s e : Nat} (hs : s ≤ e)
    (he : e ≤ xs.length) (hr : repl.length = e - s) :
    (spliceAssign xs s e repl).length = xs.length := by
  simp [spliceAssign, Nat.max_eq_right hs]
  omega

/-- Pointwise description of splicing a replacement of exactly the span
width. -/
theorem spliceAssign_getElem? {xs repl : List Char} {s e : Nat} (hs : s ≤ e)
    (he : e ≤ xs.length) (hr : repl.length = e - s) (j : Nat) :
    (spliceAssign xs s e repl)[j]? =
      if j < s then xs[j]? else if j < e then repl[j - s]? else xs[j]? := by
  have hts : (xs.take s).length = s := by rw [List.length_take]; omega
  have hlen1 : (xs.take s ++ repl).length = e := by
    rw [List.length_append, hts]; omega
  unfold spliceAssign
  rw [Nat.max_eq_right hs, List.getElem?_append, hlen1]
  by_cases h1 : j < s
  · rw [if_pos (by omega), List.getElem?_append, hts, if_pos h1,
      List.getElem?_take, if_pos h1, if_pos h1]
  · by_cases h2 : j < e
    · rw [if_pos h2, List.getElem?_append, hts, if_neg h1, if_neg h1, if_pos h2]
    · rw [if_neg h2, if_neg h1, if_neg h2, List.getElem?_drop]
      have hj : e + (j - e) = j := by omega
      rw [hj]

/-! ### The simulation between the replacement loop and greedy selection -/

/-- Overlap is symmetric. -/
theorem overlapB_comm (a b : Nat × Nat) : overlapB a b = overlapB b a := by
  unfold overlapB; exact Bool.and_comm _ _

/-- Unfolding of `overlapB`. -/
theorem overlapB_iff {a b : Nat × Nat} :
    overlapB a b = true ↔ (a.1 < b.2 ∧ b.1 < a.2) := by
  simp [overlapB]

/-- Unfolding of `inSpanB`. -/
theorem inSpanB_iff {sp : Nat × Nat} {j : Nat} :
    inSpanB sp j = true ↔ (sp.1 ≤ j ∧ j < sp.2) := by
  simp [inSpanB]

/-- Two booleans are equal when they are equi-true. -/
theorem bool_eq_of_iff {a b : Bool} (h : a = true ↔ b = true) : a = b := by
  cases a <;> cases b <;> simp_all

/-- Under the invariant, the occupancy test of the loop coincides with the
overlap test against the accepted spans. -/
theorem anyOccupied_eq_any_overlap {label t : List Char}
    {acc : List (Nat × Nat)} {st : List Char × List Bool}
    (inv : SimInv label t acc st) {sp : Nat × Nat} (hsp1 : sp.1 < sp.2)
    (hsp2 : sp.2 ≤ t.length) :
    anyOccupied st.2 sp.1 sp.2 = acc.any (fun q => overlapB sp q) := by
  obtain ⟨hwf, _, _, hocc, _, _⟩ := inv
  apply bool_eq_of_iff
  rw [anyOccupied_iff, List.any_eq_true]
  constructor
  · rintro ⟨j, h1, h2, h3⟩
    rw [hocc j] at h3
    by_cases hj : j < t.length
    · rw [if_pos hj] at h3
      have hacc : acc.any (fun q => inSpanB q j) = true := Option.some.inj h3
      obtain ⟨q, hq, hqj⟩ := List.any_eq_true.mp hacc
      rw [inSpanB_iff] at hqj
      exact ⟨q, hq, overlapB_iff.mpr (by omega)⟩
    · rw [if_neg hj] at h3
      exact Option.noConfusion h3
  · rintro ⟨q, hq, hov⟩
    rw [overlapB_iff] at hov
    have hqwf := hwf q hq
    refine ⟨max sp.1 q.1, by omega, by omega, ?_⟩
    rw [hocc _, if_pos (by omega)]
    congr 1
    apply List.any_eq_true.mpr
    exact ⟨q, hq, inSpanB_iff.mpr (by omega)⟩

/-- Accepting a non-overlapping span re-establishes the invariant. -/
theorem sim_step {label t : List Char} {acc : List (Nat × Nat)}
    {st : List Char × List Bool} (inv : SimInv label t acc st)
    {sp : Nat × Nat}
    (hsp : sp.1 < sp.2 ∧ sp.2 ≤ t.length ∧ label.length ≤ sp.2 - sp.1)
    (hb : acc.any (fun q => overlapB sp q) = false) :
    SimInv label t (acc ++ [sp])
      (spliceAssign st.1 sp.1 sp.2 (ljust label (sp.2 - sp.1)),
       markRange st.2 sp.1 sp.2) := by
  obtain ⟨hwf, hpw, hol, hocc, hcl, hch⟩ := inv
  obtain ⟨hs1, hs2, hs3⟩ := hsp
  have hno : ∀ q ∈ acc, overlapB sp q = false := by
    intro q hq
    exact Bool.eq_false_iff.mpr (List.any_eq_false.mp hb q hq)
  have hr : (ljust label (sp.2 - sp.1)).length = sp.2 - sp.1 := by
    rw [ljust_length]; omega
  refine ⟨?_, ?_, ?_, ?_, ?_, ?_⟩
  · intro q hq
    rcases List.mem_append.mp hq with h | h
    · exact hwf q h
    · rw [List.mem_singleton] at h; subst h; exact ⟨hs1, hs2, hs3⟩
  · rw [List.pairwise_append]
    refine ⟨hpw, List.pairwise_singleton _ _, ?_⟩
    intro a ha b hbm
    rw [List.mem_singleton] at hbm; subst hbm
    rw [overlapB_comm]
    exact hno a ha
  · simp only [markRange_length]; exact hol
  · intro j
    simp only [markRange_getElem?, hol]
    by_cases hin : sp.1 ≤ j ∧ j < sp.2 ∧ j < t.length
    · rw [if_pos hin, if_pos (by omega)]
      congr 1
      symm
      apply List.any_eq_true.mpr
      refine ⟨sp, List.mem_append.mpr (Or.inr (List.mem_singleton.mpr rfl)),
        inSpanB_iff.mpr (by omega)⟩
    · rw [if_neg hin, hocc j]
      by_cases hj : j < t.length
      · rw [if_pos hj, if_pos hj]
        congr 1
        rw [List.any_append]
        have : [sp].any (fun q => inSpanB q j) = false := by
          simp only [List.any_cons, List.any_nil, Bool.or_false]
          rw [Bool.eq_false_iff]
          intro hc
          rw [inSpanB_iff] at hc
          omega
        rw [this, Bool.or_false]
      · rw [if_neg hj, if_neg hj]
  · rw [spliceAssign_length (Nat.le_of_lt hs1) (by omega) hr]; exact hcl
  · intro j
    rw [spliceAssign_getElem? (Nat.le_of_lt hs1) (by omega) hr j, List.find?_append]
    by_cases h1 : j < sp.1
    · rw [if_pos h1, hch j]
      have : List.find? (fun q => inSpanB q j) [sp] = none := by
        apply List.find?_eq_none.mpr
        intro q hq
        rw [List.mem_singleton] at hq; subst hq
        rw [inSpanB_iff]; omega
      rw [this, Option.or_none]
    · by_cases h2 : j < sp.2
      · rw [if_neg h1, if_pos h2]
        have hnone : List.find? (fun q => inSpanB q j) acc = none := by
          apply List.find?_eq_none.mpr
          intro q hq
          rw [inSpanB_iff]
          intro hc
          have := hno q hq
          rw [Bool.eq_false_iff] at this
          exact this (overlapB_iff.mpr (by omega))
        have hone : List.find? (fun q => inSpanB q j) [sp] = some sp :=
          List.find?_cons_of_pos _ (inSpanB_iff.mpr (by omega))
        rw [hnone, hone, Option.none_or]
      · rw [if_neg h1, if_neg h2, hch j]
        have : List.find? (fun q => inSpanB q j) [sp] = none := by
          apply List.find?_eq_none.mpr
          intro q hq
          rw [List.mem_singleton] at hq; subst hq
          rw [inSpanB_iff]; omega
        rw [this, Option.or_none]

/-- The invariant holds initially. -/
theorem sim_init (label t : List Char) :
    SimInv label t [] (t, List.replicate t.length false) := by
  refine ⟨by simp, List.Pairwise.nil, by simp, ?_, by simp, ?_⟩
  · intro j
    simp [List.getElem?_replicate]
  · intro j
    simp [List.find?_nil]

/-- Folding the replacement loop over a list of well-formed, label-wide
spans keeps the simulation with greedy selection. -/
theorem sim_fold (label t : List Char) :
    ∀ (l acc : List (Nat × Nat)) (st : List Char × List Bool),
      (∀ sp ∈ l, sp.1 < sp.2 ∧ sp.2 ≤ t.length ∧ label.length ≤ sp.2 - sp.1) →
      SimInv label t acc st →
      SimInv label t (l.foldl stepKeep acc) (l.foldl (stepApply label) st) := by
  intro l
  induction l with
  | nil => intro acc st _ inv; exact inv
  | cons sp l' ih =>
    intro acc st hl inv
    have hsp := hl sp (List.mem_cons_self sp l')
    have hl2 : ∀ q ∈ l', q.1 < q.2 ∧ q.2 ≤ t.length ∧ label.length ≤ q.2 - q.1 :=
      fun q hq => hl q (List.mem_cons_of_mem sp hq)
    simp only [List.foldl_cons]
    have hcond := anyOccupied_eq_any_overlap inv hsp.1 hsp.2.1
    by_cases hb : acc.any (fun q => overlapB sp q) = true
    · have e1 : stepKeep acc sp = acc := by rw [stepKeep, if_pos hb]
      have e2 : stepApply label st sp = st := by
        rw [stepApply, if_pos (by rw [hcond]; exact hb)]
      rw [e1, e2]
      exact ih acc st hl2 inv
    · have hbf : acc.any (fun q => overlapB sp q) = false := Bool.eq_false_iff.mpr hb
      have e1 : stepKeep acc sp = acc ++ [sp] := by rw [stepKeep, if_neg hb]
      have e2 : stepApply label st sp =
          (spliceAssign st.1 sp.1 sp.2 (ljust label (sp.2 - sp.1)),
           markRange st.2 sp.1 sp.2) := by
        rw [stepApply, if_neg (by rw [hcond]; exact hb)]
      rw [e1, e2]
      exact ih _ _ hl2 (sim_step inv hsp hbf)

/-- Greedy selection only ever keeps pairwise non-overlapping spans. -/
theorem specAccept_go_pairwise :
    ∀ (l acc : List (Nat × Nat)),
      List.Pairwise (fun a b => overlapB a b = false) acc →
      List.Pairwise (fun a b => overlapB a b = false) (l.foldl stepKeep acc) := by
  intro l
  induction l with
  | nil => exact fun acc h => h
  | cons sp l' ih =>
    intro acc h
    simp only [List.foldl_cons]
    apply ih
    unfold stepKeep
    by_cases hb : acc.any (fun q => overlapB sp q) = true
    · rw [if_pos hb]; exact h
    · rw [if_neg hb]
      rw [List.pairwise_append]
      refine ⟨h, List.pairwise_singleton _ _, ?_⟩
      intro a ha b hbm
      rw [List.mem_singleton] at hbm; subst hbm
      rw [overlapB_comm]
      exact Bool.eq_false_iff.mpr
        (List.any_eq_false.mp (Bool.eq_false_iff.mpr hb) a ha)

/-- Greedy selection returns a subset of its input. -/
theorem specAccept_go_mem :
    ∀ (l acc : List (Nat × Nat)) (sp : Nat × Nat),
      sp ∈ l.foldl stepKeep acc → sp ∈ acc ∨ sp ∈ l := by
  intro l
  induction l with
  | nil => intro acc sp h; exact Or.inl h
  | cons a l' ih =>
    intro acc sp h
    simp only [List.foldl_cons] at h
    rcases ih _ sp h with h1 | h1
    · unfold stepKeep at h1
      by_cases hb : acc.any (fun q => overlapB a q) = true
      · rw [if_pos hb] at h1; exact Or.inl h1
      · rw [if_neg hb] at h1
        rcases List.mem_append.mp h1 with h2 | h2
        · exact Or.inl h2
        · rw [List.mem_singleton] at h2
          exact Or.inr (by rw [h2]; exact List.mem_cons_self a l')
    · exact Or.inr (List.mem_cons_of_mem a h1)

/-- The accepted spans are pairwise non-overlapping. -/
theorem acceptedSpans_pairwise (pats : List RE) (t : List Char) :
    List.Pairwise (fun a b => overlapB a b = false) (acceptedSpans pats t) :=
  specAccept_go_pairwise _ [] List.Pairwise.nil

/-- Every accepted span is a collected candidate span. -/
theorem acceptedSpans_mem {pats : List RE} {t : List Char} {sp : Nat × Nat}
    (h : sp ∈ acceptedSpans pats t) : sp ∈ collectSpans pats t := by
  rcases specAccept_go_mem _ [] sp h with h1 | h1
  · exact absurd h1 (List.not_mem_nil sp)
  · exact (sortSpans_perm _).mem_iff.mp h1

/-- Pointwise description of the specification-side rewriting. -/
theorem specRewrite_getElem? (acc : List (Nat × Nat)) (label t : List Char)
    (j : Nat) :
    (specRewrite acc label t)[j]? =
      if j < t.length then
        some (match acc.find? (fun sp => inSpanB sp j) with
          | some sp => (ljust label (sp.2 - sp.1)).getD (j - sp.1) ' '
          | none => t.getD j ' ')
      else none := by
  unfold specRewrite
  rw [List.getElem?_map]
  by_cases h : j < t.length
  · rw [List.getElem?_range (by simpa using h), if_pos h]
    rfl
  · rw [List.getElem?_eq_none (by simpa using h), if_neg h]
    rfl

/-- The rewriting preserves the length. -/
theorem specRewrite_length (acc : List (Nat × Nat)) (label t : List Char) :
    (specRewrite acc label t).length = t.length := by
  simp [specRewrite]

/-- The resolver equals greedy selection over the sorted span list followed
by pointwise rewriting, for well-formed spans at least as wide as the
label. -/
theorem resolve_eq_specRewrite (l : List (Nat × Nat)) (t label : List Char)
    (hwf : ∀ sp ∈ l, sp.1 < sp.2 ∧ sp.2 ≤ t.length ∧ label.length ≤ sp.2 - sp.1) :
    resolveSpans l t label = specRewrite (specAccept (sortSpans l)) label t := by
  unfold resolveSpans
  by_cases hl : l.isEmpty
  · rw [if_pos hl]
    have hnil : l = [] := List.isEmpty_iff.mp hl
    subst hnil
    show t = specRewrite (specAccept []) label t
    apply List.ext_getElem?
    intro j
    rw [specRewrite_getElem?]
    by_cases hj : j < t.length
    · rw [if_pos hj]
      have : List.find? (fun sp => inSpanB sp j) (specAccept []) = none := rfl
      rw [this, List.getD_eq_getElem?_getD, List.getElem?_eq_getElem hj]
      rfl
    · rw [if_neg hj, List.getElem?_eq_none (by omega)]
  · rw [if_neg hl]
    have hwf2 : ∀ sp ∈ sortSpans l,
        sp.1 < sp.2 ∧ sp.2 ≤ t.length ∧ label.length ≤ sp.2 - sp.1 :=
      fun sp hsp => hwf sp ((sortSpans_perm l).mem_iff.mp hsp)
    have inv := sim_fold label t (sortSpans l) []
      (t, List.replicate t.length false) hwf2 (sim_init label t)
    obtain ⟨hawf, _, _, _, _, hch⟩ := inv
    apply List.ext_getElem?
    intro j
    rw [hch j, specRewrite_getElem?]
    have haccept : (sortSpans l).foldl stepKeep [] =
        specAccept (sortSpans l) := rfl
    rw [haccept] at hawf ⊢
    by_cases hj : j < t.length
    · rw [if_pos hj]
      cases hf : List.find? (fun sp => inSpanB sp j) (specAccept (sortSpans l)) with
      | none =>
        show t[j]? = some (t.getD j ' ')
        rw [List.getD_eq_getElem?_getD, List.getElem?_eq_getElem hj]
        rfl
      | some sp =>
        have hin := List.find?_some hf
        simp only [inSpanB_iff] at hin
        have hjw : j - sp.1 < (ljust label (sp.2 - sp.1)).length := by
          rw [ljust_length]; omega
        show (ljust label (sp.2 - sp.1))[j - sp.1]? =
          some ((ljust label (sp.2 - sp.1)).getD (j - sp.1) ' ')
        rw [List.getD_eq_getElem?_getD, List.getElem?_eq_getElem hjw]
        rfl
    · rw [if_neg hj]
      cases hf : List.find? (fun sp => inSpanB sp j) (specAccept (sortSpans l)) with
      | none =>
        show t[j]? = none
        rw [List.getElem?_eq_none (by omega)]
      | some sp =>
        have hin := List.find?_some hf
        simp only [inSpanB_iff] at hin
        have hsp := hawf sp (List.mem_of_find?_eq_some hf)
        exact absurd (show j < t.length by omega) hj

/-! ### Further consequences -/

/-- In a pairwise non-overlapping list, `find?` locates the unique span
covering a position. -/
theorem find?_covering :
    ∀ {acc : List (Nat × Nat)},
      List.Pairwise (fun a b => overlapB a b = false) acc →
      ∀ {sp : Nat × Nat}, sp ∈ acc → ∀ {j : Nat}, sp.1 ≤ j → j < sp.2 →
      List.find? (fun q => inSpanB q j) acc = some sp := by
  intro acc
  induction acc with
  | nil => intro _ sp h; exact absurd h (List.not_mem_nil sp)
  | cons a rest ih =>
    intro hpw sp hmem j hj1 hj2
    rcases List.mem_cons.mp hmem with he | he
    · subst he
      exact List.find?_cons_of_pos _ (inSpanB_iff.mpr ⟨hj1, hj2⟩)
    · have hov : overlapB a sp = false := (List.pairwise_cons.mp hpw).1 sp he
      have hnin : ¬(fun q => inSpanB q j) a = true := by
        intro hc
        rw [inSpanB_iff] at hc
        rw [Bool.eq_false_iff] at hov
        exact hov (overlapB_iff.mpr (by omega))
      have hstep : List.find? (fun q => inSpanB q j) (a :: rest) =
          List.find? (fun q => inSpanB q j) rest :=
        List.find?_cons_of_neg rest hnin
      rw [hstep]
      exact ih (List.pairwise_cons.mp hpw).2 he hj1 hj2

/-- A fresh occupancy array rejects nothing. -/
theorem anyOccupied_replicate (n s e : Nat) :
    anyOccupied (List.replicate n false) s e = false := by
  rw [Bool.eq_false_iff]
  intro h
  obtain ⟨j, _, _, h3⟩ := (anyOccupied_iff _ _ _).mp h
  rw [List.getElem?_replicate] at h3
  by_cases hj : j < n
  · rw [if_pos hj] at h3
    exact Bool.noConfusion (Option.some.inj h3)
  · rw [if_neg hj] at h3
    exact Option.noConfusion h3

/-- Occupancy over a single marked range. -/
theorem anyOccupied_markRange_replicate {n x1 x2 s e : Nat} :
    anyOccupied (markRange (List.replicate n false) x1 x2) s e = true ↔
      ∃ j, s ≤ j ∧ j < e ∧ x1 ≤ j ∧ j < x2 ∧ j < n := by
  rw [anyOccupied_iff]
  constructor
  · rintro ⟨j, h1, h2, h3⟩
    rw [markRange_getElem?, List.length_replicate] at h3
    by_cases hc : x1 ≤ j ∧ j < x2 ∧ j < n
    · exact ⟨j, h1, h2, hc.1, hc.2.1, hc.2.2⟩
    · rw [if_neg hc, List.getElem?_replicate] at h3
      by_cases hj : j < n
      · rw [if_pos hj] at h3
        exact absurd (Option.some.inj h3) (by simp)
      · rw [if_neg hj] at h3
        exact Option.noConfusion h3
  · rintro ⟨j, h1, h2, h3, h4, h5⟩
    refine ⟨j, h1, h2, ?_⟩
    rw [markRange_getElem?, List.length_replicate, if_pos ⟨h3, h4, h5⟩]

/-- One replacement step never changes the occupancy array's length. -/
theorem stepApply_occ_length (label : List Char) (st : List Char × List Bool)
    (sp : Nat × Nat) : (stepApply label st sp).2.length = st.2.length := by
  unfold stepApply
  by_cases h : anyOccupied st.2 sp.1 sp.2 = true
  · rw [if_pos h]
  · rw [if_neg h]
    exact markRange_length _ _ _

/-- Processing the same in-bounds, non-empty span twice in a row is the
same as processing it once: the second pass finds the span occupied. -/
theorem stepApply_idem (label : List Char) {st : List Char × List Bool}
    {sp : Nat × Nat} {n : Nat} (hlen : st.2.length = n) (h1 : sp.1 < sp.2)
    (h2 : sp.2 ≤ n) :
    stepApply label (stepApply label st sp) sp = stepApply label st sp := by
  by_cases hb : anyOccupied st.2 sp.1 sp.2 = true
  · have e : stepApply label st sp = st := by rw [stepApply, if_pos hb]
    rw [e, e]
  · have e : stepApply label st sp =
        (spliceAssign st.1 sp.1 sp.2 (ljust label (sp.2 - sp.1)),
         markRange st.2 sp.1 sp.2) := by
      rw [stepApply, if_neg hb]
    rw [e, stepApply]
    have hocc : anyOccupied (markRange st.2 sp.1 sp.2) sp.1 sp.2 = true := by
      rw [anyOccupied_iff]
      refine ⟨sp.1, le_refl _, h1, ?_⟩
      rw [markRange_getElem?, if_pos ⟨le_refl _, h1, by omega⟩]
    rw [if_pos hocc]

/-- The comparison is reflexive. -/
theorem spanLE_refl (a : Nat × Nat) : spanLE a a = true :=
  spanLE_iff.mpr (Or.inr ⟨rfl, le_refl _⟩)

/-- In a sorted list of well-formed spans, a head that repeats later must
repeat immediately. -/
theorem sorted_dup_head {a : Nat × Nat} {T : List (Nat × Nat)}
    (hs : List.Pairwise (fun x y => spanLE x y = true) (a :: T))
    (hwf : ∀ sp ∈ a :: T, sp.1 ≤ sp.2) (ha : a ∈ T) :
    ∃ T2, T = a :: T2 := by
  cases T with
  | nil => exact absurd ha (List.not_mem_nil a)
  | cons h T2 =>
    have h1 : spanLE a h = true :=
      (List.pairwise_cons.mp hs).1 h (List.mem_cons_self h T2)
    have h2 : spanLE h a = true := by
      rcases List.mem_cons.mp ha with he | he
      · rw [← he]; exact spanLE_refl a
      · exact (List.pairwise_cons.mp (List.pairwise_cons.mp hs).2).1 a he
    have heq : a = h := spanLE_antisymm
      (hwf a (List.mem_cons_self a _))
      (hwf h (List.mem_cons_of_mem a (List.mem_cons_self h T2))) h1 h2
    exact ⟨T2, by rw [heq]⟩

/-- Over a sorted list of in-bounds, non-empty spans, the replacement loop
does not see exact duplicates: folding over the list equals folding over
its deduplication. -/
theorem foldl_stepApply_dedup (label : List Char) (n : Nat) :
    ∀ (l : List (Nat × Nat)) (st : List Char × List Bool),
      List.Pairwise (fun x y => spanLE x y = true) l →
      (∀ sp ∈ l, sp.1 < sp.2 ∧ sp.2 ≤ n) →
      st.2.length = n →
      l.foldl (stepApply label) st = l.dedup.foldl (stepApply label) st := by
  intro l
  induction l with
  | nil => intro st _ _ _; rfl
  | cons a T ih =>
    intro st hs hwf hlen
    by_cases ha : a ∈ T
    · obtain ⟨T2, hT⟩ := sorted_dup_head hs
        (fun sp h => le_of_lt (hwf sp h).1) ha
      rw [List.dedup_cons_of_mem ha]
      have hidem := stepApply_idem label hlen
        (hwf a (List.mem_cons_self a T)).1 (hwf a (List.mem_cons_self a T)).2
      have lhs_eq : (a :: T).foldl (stepApply label) st =
          T.foldl (stepApply label) st := by
        rw [hT]
        simp only [List.foldl_cons]
        rw [hidem]
      rw [lhs_eq]
      exact ih st (List.pairwise_cons.mp hs).2
        (fun sp h => hwf sp (List.mem_cons_of_mem a h)) hlen
    · rw [List.dedup_cons_of_not_mem ha]
      simp only [List.foldl_cons]
      exact ih (stepApply label st a) (List.pairwise_cons.mp hs).2
        (fun sp h => hwf sp (List.mem_cons_of_mem a h))
        (by rw [stepApply_occ_length]; exact hlen)

/-- Exact duplicate candidate spans do not change the resolver's output. -/
theorem resolveSpans_dedup (l : List (Nat × Nat)) (t label : List Char)
    (hwf : ∀ sp ∈ l, sp.1 < sp.2 ∧ sp.2 ≤ t.length) :
    resolveSpans l t label = resolveSpans l.dedup t label := by
  unfold resolveSpans
  by_cases hl : l.isEmpty
  · have hnil : l = [] := List.isEmpty_iff.mp hl
    subst hnil
    rfl
  · have hl2 : ¬l.dedup.isEmpty = true := by
      intro hc
      exact hl (List.isEmpty_iff.mpr ((List.dedup_eq_nil l).mp (List.isEmpty_iff.mp hc)))
    rw [if_neg hl, if_neg hl2]
    have hsort : sortSpans l.dedup = (sortSpans l).dedup := by
      apply sortSpans_eq_of
      · exact (sortSpans_perm l).dedup
      · exact List.Pairwise.sublist (List.dedup_sublist _) (sortSpans_sorted l)
      · intro sp hsp
        exact le_of_lt (hwf sp (List.mem_dedup.mp hsp)).1
    rw [hsort]
    rw [foldl_stepApply_dedup label t.length (sortSpans l)
      (t, List.replicate t.length false) (sortSpans_sorted l)
      (fun sp h => hwf sp ((sortSpans_perm l).mem_iff.mp h)) (by simp)]

/-- The truncating replacement loop of `reemplazar_identificadores`
preserves the character array's length for in-bounds spans. -/
theorem foldTrunc_length (label t : List Char) :
    ∀ (l : List (Nat × Nat)) (st : List Char × List Bool),
      (∀ sp ∈ l, sp.1 ≤ sp.2 ∧ sp.2 ≤ t.length) →
      st.1.length = t.length →
      (l.foldl (stepApplyTrunc label) st).1.length = t.length := by
  intro l
  induction l with
  | nil => intro st _ h; exact h
  | cons sp l' ih =>
    intro st hwf hlen
    simp only [List.foldl_cons]
    apply ih _ (fun q hq => hwf q (List.mem_cons_of_mem sp hq))
    unfold stepApplyTrunc
    by_cases hb : anyOccupied st.2 sp.1 sp.2 = true
    · rw [if_pos hb]; exact hlen
    · rw [if_neg hb]
      have hsp := hwf sp (List.mem_cons_self sp l')
      have hr : ((ljust label (sp.2 - sp.1)).take (sp.2 - sp.1)).length
          = sp.2 - sp.1 := by
        rw [List.length_take, ljust_length]; omega
      rw [spliceAssign_length hsp.1 (by omega) hr]
      exact hlen

/-- `replace_identifiers` is the greedy, pointwise rewriting, for labels no
longer than the catalog's minimum span width. -/
theorem replace_identifiers_eq (t label : List Char) (hlab : label.length ≤ 4) :
    replace_identifiers t label = specRewrite (acceptedSpans PATTERNS t) label t := by
  unfold replace_identifiers replaceWithPats acceptedSpans
  apply resolve_eq_specRewrite
  intro sp hsp
  have := collect_wf_PATTERNS hsp
  exact ⟨by omega, this.2, by omega⟩

/-- Accepting an unoccupied span, as an explicit state equation. -/
theorem stepApply_accept {label t0 : List Char} {occ : List Bool}
    {sp : Nat × Nat} (h : anyOccupied occ sp.1 sp.2 = false) :
    stepApply label (t0, occ) sp =
      (spliceAssign t0 sp.1 sp.2 (ljust label (sp.2 - sp.1)),
       markRange occ sp.1 sp.2) := by
  simp only [stepApply]
  rw [if_neg (by rw [h]; exact Bool.false_ne_true)]

/-- Skipping an occupied span, as an explicit state equation. -/
theorem stepApply_skip {label t0 : List Char} {occ : List Bool}
    {sp : Nat × Nat} (h : anyOccupied occ sp.1 sp.2 = true) :
    stepApply label (t0, occ) sp = (t0, occ) := by
  simp only [stepApply]
  rw [if_pos h]

/-! ### The claims -/

/-- C1: Length invariance — for every input string `t`, redaction with the
default placeholder `"<ID>"` returns a string with the same number of code
points, both for `replace_identifiers` (`src/filter_ID.py`) and for
`reemplazar_identificadores` (`dataset_filter_ID.py`). -/
theorem C1_length_invariance :
    (∀ t : List Char, (replace_identifiers t idLabel).length = t.length) ∧
    (∀ t : List Char, (reemplazar_identificadores t).length = t.length) := by
  constructor
  · intro t
    rw [replace_identifiers_eq t idLabel (by decide)]
    exact specRewrite_length _ _ _
  · intro t
    unfold reemplazar_identificadores
    apply foldTrunc_length
    · intro sp hsp
      have := collect_wf_ordered ((sortSpans_perm _).mem_iff.mp hsp)
      omega
    · rfl

/-- C10: Minimum match width — every candidate span produced by any
pattern of either built-in catalog is at least 4 code points wide, the
length of the default placeholder `"<ID>"`. -/
theorem C10_min_match_width (t : List Char) (sp : Nat × Nat) :
    (sp ∈ collectSpans PATTERNS t → 4 ≤ sp.2 - sp.1) ∧
    (sp ∈ collectSpans ordered_regex_patterns t → 4 ≤ sp.2 - sp.1) := by
  constructor
  · intro h
    have := collect_wf_PATTERNS h
    omega
  · intro h
    have := collect_wf_ordered h
    omega

/-- Witness for C10 at a concrete input: the CI_NIC span of
`"123-456789-1234"`. -/
theorem C10_witness :
    4 ≤ 15 - 0 ∧ 4 ≤ 22 - 10 :=
  ⟨(C10_min_match_width "123-456789-1234".toList (0, 15)).1 (by decide),
   (C10_min_match_width "Mi RUT es 12.345.678-9".toList (10, 22)).2 (by decide)⟩

/-- C2: Selection rule — the redactor sorts the collected candidate spans
by descending length with ascending start as tie-break, processes them in
that order, and discards a span exactly when it overlaps a previously
accepted span, otherwise accepting it; the output is the accepted spans
rewritten in place (stated for any placeholder of at most the catalog's
minimum span width 4, in particular the default `"<ID>"`). -/
theorem C2_selection_rule (t label : List Char) (hlab : label.length ≤ 4) :
    (sortSpans (collectSpans PATTERNS t)).Perm (collectSpans PATTERNS t) ∧
    List.Pairwise (fun a b =>
      b.2 - b.1 < a.2 - a.1 ∨ (a.2 - a.1 = b.2 - b.1 ∧ a.1 ≤ b.1))
      (sortSpans (collectSpans PATTERNS t)) ∧
    replace_identifiers t label = specRewrite (acceptedSpans PATTERNS t) label t := by
  refine ⟨sortSpans_perm _, ?_, replace_identifiers_eq t label hlab⟩
  exact (sortSpans_sorted _).imp (fun h => spanLE_iff.mp h)

/-- Witness for C2 at a concrete input. -/
theorem C2_witness :
    replace_identifiers "Mi RUT es 12.345.678-9".toList idLabel =
      specRewrite (acceptedSpans PATTERNS "Mi RUT es 12.345.678-9".toList)
        idLabel "Mi RUT es 12.345.678-9".toList :=
  (C2_selection_rule "Mi RUT es 12.345.678-9".toList idLabel (by decide)).2.2

/-- C3: Output decomposition — the spans a redaction call rewrites are
pairwise disjoint, and every code point outside every accepted span is
unchanged in the output. -/
theorem C3_output_decomposition (t : List Char) :
    List.Pairwise (fun a b => ¬(a.1 < b.2 ∧ b.1 < a.2))
      (acceptedSpans PATTERNS t) ∧
    (∀ j, (∀ sp ∈ acceptedSpans PATTERNS t, ¬(sp.1 ≤ j ∧ j < sp.2)) →
      (replace_identifiers t idLabel)[j]? = t[j]?) := by
  constructor
  · exact (acceptedSpans_pairwise PATTERNS t).imp (fun h => by
      intro hc
      rw [Bool.eq_false_iff] at h
      exact h (overlapB_iff.mpr hc))
  · intro j hout
    rw [replace_identifiers_eq t idLabel (by decide), specRewrite_getElem?]
    have hnone : List.find? (fun sp => inSpanB sp j) (acceptedSpans PATTERNS t)
        = none := by
      apply List.find?_eq_none.mpr
      intro sp hsp hc
      exact hout sp hsp (inSpanB_iff.mp hc)
    rw [hnone]
    by_cases hj : j < t.length
    · rw [if_pos hj, List.getD_eq_getElem?_getD, List.getElem?_eq_getElem hj]
      rfl
    · rw [if_neg hj, List.getElem?_eq_none (by omega)]

/-- Witness for C3: an untouched position of a concrete input. -/
theorem C3_witness :
    (replace_identifiers "Mi RUT es 12.345.678-9".toList idLabel)[3]? =
      "Mi RUT es 12.345.678-9".toList[3]? :=
  (C3_output_decomposition "Mi RUT es 12.345.678-9".toList).2 3 (by decide)

/-- C4 counterexample: with the two accepted spans of
`"P111 C-12345678"` and the placeholder `"LABEL!"` (longer than the
4-wide RUC_PAN span), `replace_identifiers` splices the full placeholder
without truncating it, the accepted span `[5, 15)` does not contain the
fitted placeholder in the output, and the output length grows. -/
theorem C4_counterexample :
    (5, 15) ∈ acceptedSpans PATTERNS "P111 C-12345678".toList ∧
    ((replace_identifiers "P111 C-12345678".toList "LABEL!".toList).drop 5).take 10 ≠
      ljust "LABEL!".toList 10 ∧
    (replace_identifiers "P111 C-12345678".toList "LABEL!".toList).length ≠
      ("P111 C-12345678".toList).length := by
  decide

/-- C4 (amended): Placeholder fitting — whenever the placeholder is no
longer than 4 code points (the catalog's minimum span width, in particular
the default `"<ID>"`), every accepted span's output range `[start, end)`
contains exactly the placeholder padded on the right with spaces to the
span width.  (`replace_identifiers` never truncates a longer placeholder;
the truncating variant is only `reemplazar_identificadores`, whose label is
hard-coded.) -/
theorem C4_placeholder_fitting (t label : List Char) (hlab : label.length ≤ 4) :
    ∀ sp ∈ acceptedSpans PATTERNS t,
      ((replace_identifiers t label).drop sp.1).take (sp.2 - sp.1) =
        ljust label (sp.2 - sp.1) := by
  intro sp hsp
  have hwf := collect_wf_PATTERNS (acceptedSpans_mem hsp)
  have hlen : (ljust label (sp.2 - sp.1)).length = sp.2 - sp.1 := by
    rw [ljust_length]; omega
  apply List.ext_getElem?
  intro k
  rw [List.getElem?_take]
  by_cases hk : k < sp.2 - sp.1
  · rw [if_pos hk, List.getElem?_drop,
      replace_identifiers_eq t label hlab, specRewrite_getElem?,
      if_pos (by omega)]
    have hfind : List.find? (fun q => inSpanB q (sp.1 + k))
        (acceptedSpans PATTERNS t) = some sp :=
      find?_covering (acceptedSpans_pairwise PATTERNS t) hsp
        (by omega) (by omega)
    rw [hfind]
    show some ((ljust label (sp.2 - sp.1)).getD (sp.1 + k - sp.1) ' ') =
      (ljust label (sp.2 - sp.1))[k]?
    have hred : sp.1 + k - sp.1 = k := by omega
    rw [hred, List.getD_eq_getElem?_getD, List.getElem?_eq_getElem (by omega)]
    rfl
  · rw [if_neg hk, List.getElem?_eq_none (by omega)]

/-- Witness for C4 (amended) at a concrete input: the RUT span of
`"Mi RUT es 12.345.678-9"` is exactly filled by the padded `"<ID>"`. -/
theorem C4_witness :
    ((replace_identifiers "Mi RUT es 12.345.678-9".toList idLabel).drop 10).take 12 =
      ljust idLabel 12 :=
  C4_placeholder_fitting "Mi RUT es 12.345.678-9".toList idLabel (by decide)
    (10, 22) (by decide)

/-- C5 counterexample: redaction is not idempotent.  In
`"20-12345678-1.234.567-8.123.456-7"` the CUIT span `[0, 13)` wins and its
redaction discards the overlapping RUT/CI_URU span `[12, 23)`; the second
RUT occurrence `[22, 33)` was shadowed inside `finditer`'s non-overlapping
scan on the first pass, but matches again in the redacted output, so a
second application redacts it too. -/
theorem C5_counterexample :
    replace_identifiers
        (replace_identifiers "20-12345678-1.234.567-8.123.456-7".toList idLabel)
        idLabel ≠
      replace_identifiers "20-12345678-1.234.567-8.123.456-7".toList idLabel := by
  decide

/-- C5 (amended): Conditional idempotence — a second application of the
redactor changes nothing whenever the first output admits no candidate
span; in general idempotence fails because same-pattern matches shadowed by
`finditer`'s non-overlapping scan can re-surface after redaction
(counterexample above).  The placeholder itself is never re-matched. -/
theorem C5_conditional_idempotence (t : List Char)
    (h : collectSpans PATTERNS (replace_identifiers t idLabel) = []) :
    replace_identifiers (replace_identifiers t idLabel) idLabel =
      replace_identifiers t idLabel := by
  generalize hx : replace_identifiers t idLabel = x at h ⊢
  unfold replace_identifiers replaceWithPats
  rw [h]
  rfl

/-- Witness for C5 (amended) at a concrete input. -/
theorem C5_witness :
    replace_identifiers
        (replace_identifiers "Mi RUT es 12.345.678-9".toList idLabel) idLabel =
      replace_identifiers "Mi RUT es 12.345.678-9".toList idLabel :=
  C5_conditional_idempotence "Mi RUT es 12.345.678-9".toList (by decide)

/-- C7: Identity on no-match and on empty input — when no pattern of the
catalog produces a candidate span, both redactors return the input
unchanged; in particular both map the empty string to the empty string. -/
theorem C7_identity_no_match :
    (∀ t : List Char, collectSpans PATTERNS t = [] →
      replace_identifiers t idLabel = t) ∧
    (∀ t : List Char, collectSpans ordered_regex_patterns t = [] →
      reemplazar_identificadores t = t) ∧
    replace_identifiers [] idLabel = [] ∧
    reemplazar_identificadores [] = [] := by
  have h1 : ∀ t : List Char, collectSpans PATTERNS t = [] →
      replace_identifiers t idLabel = t := by
    intro t h
    unfold replace_identifiers replaceWithPats
    rw [h]
    rfl
  have h2 : ∀ t : List Char, collectSpans ordered_regex_patterns t = [] →
      reemplazar_identificadores t = t := by
    intro t h
    unfold reemplazar_identificadores
    rw [h]
    rfl
  exact ⟨h1, h2, h1 [] (by decide), h2 [] (by decide)⟩

/-- Witness for C7 at a concrete input with no identifier. -/
theorem C7_witness :
    replace_identifiers "Esto no tiene nada".toList idLabel =
      "Esto no tiene nada".toList :=
  C7_identity_no_match.1 "Esto no tiene nada".toList (by decide)

/-- Resolving a candidate list whose sorted form is `[x, y]` with `y`
overlapping `x`: only `x` is accepted and rewritten. -/
theorem resolveSpans_pair_skip (t label : List Char) (l : List (Nat × Nat))
    (x y : Nat × Nat) (hne : l.isEmpty = false) (hsort : sortSpans l = [x, y])
    (hx1 : x.1 < x.2) (hx2 : x.2 ≤ t.length) (hy1 : y.1 < y.2)
    (ho1 : x.1 < y.2) (ho2 : y.1 < x.2) :
    specAccept (sortSpans l) = [x] ∧
    resolveSpans l t label = spliceAssign t x.1 x.2 (ljust label (x.2 - x.1)) := by
  constructor
  · rw [hsort]
    have h1 : stepKeep [] x = [x] := by simp [stepKeep]
    have h2 : stepKeep [x] y = [x] := by
      have hov : ([x].any fun q => overlapB y q) = true := by
        simp only [List.any_cons, List.any_nil, Bool.or_false]
        exact overlapB_iff.mpr (by omega)
      simp [stepKeep, hov]
    unfold specAccept
    simp only [List.foldl_cons, List.foldl_nil]
    rw [h1, h2]
  · unfold resolveSpans
    rw [if_neg (by rw [hne]; exact Bool.false_ne_true)]
    rw [hsort]
    simp only [List.foldl_cons, List.foldl_nil]
    rw [stepApply_accept (anyOccupied_replicate t.length x.1 x.2)]
    rw [stepApply_skip (anyOccupied_markRange_replicate.mpr
      ⟨max x.1 y.1, by omega, by omega, by omega, by omega, by omega⟩)]

/-- Resolving a candidate list whose sorted form is `[x, y]` with `x`
ending before `y` starts: both spans are accepted and rewritten. -/
theorem resolveSpans_pair_both (t label : List Char) (l : List (Nat × Nat))
    (x y : Nat × Nat) (hne : l.isEmpty = false) (hsort : sortSpans l = [x, y])
    (hxy : x.2 ≤ y.1) :
    specAccept (sortSpans l) = [x, y] ∧
    resolveSpans l t label =
      spliceAssign (spliceAssign t x.1 x.2 (ljust label (x.2 - x.1)))
        y.1 y.2 (ljust label (y.2 - y.1)) := by
  constructor
  · rw [hsort]
    have h1 : stepKeep [] x = [x] := by simp [stepKeep]
    have h2 : stepKeep [x] y = [x, y] := by
      have hov : ([x].any fun q => overlapB y q) = false := by
        simp only [List.any_cons, List.any_nil, Bool.or_false]
        rw [Bool.eq_false_iff]
        intro hc
        rw [overlapB_iff] at hc
        omega
      simp [stepKeep, hov]
    unfold specAccept
    simp only [List.foldl_cons, List.foldl_nil]
    rw [h1, h2]
  · unfold resolveSpans
    rw [if_neg (by rw [hne]; exact Bool.false_ne_true)]
    rw [hsort]
    simp only [List.foldl_cons, List.foldl_nil]
    rw [stepApply_accept (anyOccupied_replicate t.length x.1 x.2)]
    have hb2 : anyOccupied (markRange (List.replicate t.length false) x.1 x.2)
        y.1 y.2 = false := by
      rw [Bool.eq_false_iff]
      intro hc
      obtain ⟨j, h1, h2, h3, h4, h5⟩ := anyOccupied_markRange_replicate.mp hc
      omega
    rw [stepApply_accept hb2]

/-- C6: Longest-match preference and tie-break, for inputs whose candidate
list is exactly two spans `a` and `b`, in whichever order the catalog scan
collected them.  (a) If one span's range strictly contains the other's,
only the longer span is redacted (one conjunct per containment direction).
(b) If the spans have equal width and are disjoint, both are redacted (one
conjunct per relative position).  (c) If they have equal width and
overlap, only the one with the smaller start offset is redacted (one
conjunct per direction of the start comparison). -/
theorem C6_longest_match_and_tiebreak :
    (∀ (t : List Char) (a b : Nat × Nat),
      collectSpans PATTERNS t = [a, b] →
      b.1 ≤ a.1 → a.2 ≤ b.2 → a ≠ b →
      acceptedSpans PATTERNS t = [b] ∧
      replace_identifiers t idLabel =
        spliceAssign t b.1 b.2 (ljust idLabel (b.2 - b.1))) ∧
    (∀ (t : List Char) (a b : Nat × Nat),
      collectSpans PATTERNS t = [a, b] →
      a.1 ≤ b.1 → b.2 ≤ a.2 → a ≠ b →
      acceptedSpans PATTERNS t = [a] ∧
      replace_identifiers t idLabel =
        spliceAssign t a.1 a.2 (ljust idLabel (a.2 - a.1))) ∧
    (∀ (t : List Char) (a b : Nat × Nat),
      collectSpans PATTERNS t = [a, b] →
      a.2 - a.1 = b.2 - b.1 → a.2 ≤ b.1 →
      acceptedSpans PATTERNS t = [a, b] ∧
      replace_identifiers t idLabel =
        spliceAssign (spliceAssign t a.1 a.2 (ljust idLabel (a.2 - a.1)))
          b.1 b.2 (ljust idLabel (b.2 - b.1))) ∧
    (∀ (t : List Char) (a b : Nat × Nat),
      collectSpans PATTERNS t = [a, b] →
      a.2 - a.1 = b.2 - b.1 → b.2 ≤ a.1 →
      acceptedSpans PATTERNS t = [b, a] ∧
      replace_identifiers t idLabel =
        spliceAssign (spliceAssign t b.1 b.2 (ljust idLabel (b.2 - b.1)))
          a.1 a.2 (ljust idLabel (a.2 - a.1))) ∧
    (∀ (t : List Char) (a b : Nat × Nat),
      collectSpans PATTERNS t = [a, b] →
      a.2 - a.1 = b.2 - b.1 → a.1 < b.2 → b.1 < a.2 → a.1 ≤ b.1 →
      acceptedSpans PATTERNS t = [a] ∧
      replace_identifiers t idLabel =
        spliceAssign t a.1 a.2 (ljust idLabel (a.2 - a.1))) ∧
    (∀ (t : List Char) (a b : Nat × Nat),
      collectSpans PATTERNS t = [a, b] →
      a.2 - a.1 = b.2 - b.1 → a.1 < b.2 → b.1 < a.2 → b.1 ≤ a.1 →
      acceptedSpans PATTERNS t = [b] ∧
      replace_identifiers t idLabel =
        spliceAssign t b.1 b.2 (ljust idLabel (b.2 - b.1))) := by
  refine ⟨?_, ?_, ?_, ?_, ?_, ?_⟩
  · -- (a1) the span collected second strictly contains the first
    intro t a b hcol hba hab hne
    have hma : a ∈ collectSpans PATTERNS t := by
      rw [hcol]; exact List.mem_cons_self a [b]
    have hmb : b ∈ collectSpans PATTERNS t := by
      rw [hcol]; exact List.mem_cons_of_mem a (List.mem_cons_self b [])
    have hwa := collect_wf_PATTERNS hma
    have hwb := collect_wf_PATTERNS hmb
    have hne2 : a.1 ≠ b.1 ∨ a.2 ≠ b.2 := by
      by_contra hc
      push_neg at hc
      exact hne (Prod.ext hc.1 hc.2)
    have hlt : a.2 - a.1 < b.2 - b.1 := by omega
    have hsorted : sortSpans [a, b] = [b, a] := by
      apply sortSpans_eq_of
      · exact List.Perm.swap a b []
      · apply List.pairwise_cons.mpr
        refine ⟨?_, List.pairwise_singleton _ _⟩
        intro z hz
        rw [List.mem_singleton] at hz
        rw [hz]
        exact spanLE_iff.mpr (Or.inl hlt)
      · intro sp hsp
        rcases List.mem_cons.mp hsp with h | h
        · rw [h]; omega
        · rw [List.mem_singleton] at h; rw [h]; omega
    have key := resolveSpans_pair_skip t idLabel [a, b] b a rfl hsorted
      (by omega) (by omega) (by omega) (by omega) (by omega)
    constructor
    · unfold acceptedSpans
      rw [hcol]
      exact key.1
    · unfold replace_identifiers replaceWithPats
      rw [hcol]
      exact key.2
  · -- (a2) the span collected first strictly contains the second
    intro t a b hcol hab hba hne
    have hma : a ∈ collectSpans PATTERNS t := by
      rw [hcol]; exact List.mem_cons_self a [b]
    have hmb : b ∈ collectSpans PATTERNS t := by
      rw [hcol]; exact List.mem_cons_of_mem a (List.mem_cons_self b [])
    have hwa := collect_wf_PATTERNS hma
    have hwb := collect_wf_PATTERNS hmb
    have hne2 : a.1 ≠ b.1 ∨ a.2 ≠ b.2 := by
      by_contra hc
      push_neg at hc
      exact hne (Prod.ext hc.1 hc.2)
    have hlt : b.2 - b.1 < a.2 - a.1 := by omega
    have hsorted : sortSpans [a, b] = [a, b] := by
      apply sortSpans_eq_of
      · exact List.Perm.refl _
      · apply List.pairwise_cons.mpr
        refine ⟨?_, List.pairwise_singleton _ _⟩
        intro z hz
        rw [List.mem_singleton] at hz
        rw [hz]
        exact spanLE_iff.mpr (Or.inl hlt)
      · intro sp hsp
        rcases List.mem_cons.mp hsp with h | h
        · rw [h]; omega
        · rw [List.mem_singleton] at h; rw [h]; omega
    have key := resolveSpans_pair_skip t idLabel [a, b] a b rfl hsorted
      (by omega) (by omega) (by omega) (by omega) (by omega)
    constructor
    · unfold acceptedSpans
      rw [hcol]
      exact key.1
    · unfold replace_identifiers replaceWithPats
      rw [hcol]
      exact key.2
  · -- (b1) equal width, first-collected span lies to the left
    intro t a b hcol hw hdisj
    have hma : a ∈ collectSpans PATTERNS t := by
      rw [hcol]; exact List.mem_cons_self a [b]
    have hmb : b ∈ collectSpans PATTERNS t := by
      rw [hcol]; exact List.mem_cons_of_mem a (List.mem_cons_self b [])
    have hwa := collect_wf_PATTERNS hma
    have hwb := collect_wf_PATTERNS hmb
    have hsorted : sortSpans [a, b] = [a, b] := by
      apply sortSpans_eq_of
      · exact List.Perm.refl _
      · apply List.pairwise_cons.mpr
        refine ⟨?_, List.pairwise_singleton _ _⟩
        intro z hz
        rw [List.mem_singleton] at hz
        rw [hz]
        exact spanLE_iff.mpr (Or.inr ⟨hw, by omega⟩)
      · intro sp hsp
        rcases List.mem_cons.mp hsp with h | h
        · rw [h]; omega
        · rw [List.mem_singleton] at h; rw [h]; omega
    have key := resolveSpans_pair_both t idLabel [a, b] a b rfl hsorted hdisj
    constructor
    · unfold acceptedSpans
      rw [hcol]
      exact key.1
    · unfold replace_identifiers replaceWithPats
      rw [hcol]
      exact key.2
  · -- (b2) equal width, second-collected span lies to the left
    intro t a b hcol hw hdisj
    have hma : a ∈ collectSpans PATTERNS t := by
      rw [hcol]; exact List.mem_cons_self a [b]
    have hmb : b ∈ collectSpans PATTERNS t := by
      rw [hcol]; exact List.mem_cons_of_mem a (List.mem_cons_self b [])
    have hwa := collect_wf_PATTERNS hma
    have hwb := collect_wf_PATTERNS hmb
    have hsorted : sortSpans [a, b] = [b, a] := by
      apply sortSpans_eq_of
      · exact List.Perm.swap a b []
      · apply List.pairwise_cons.mpr
        refine ⟨?_, List.pairwise_singleton _ _⟩
        intro z hz
        rw [List.mem_singleton] at hz
        rw [hz]
        exact spanLE_iff.mpr (Or.inr ⟨hw.symm, by omega⟩)
      · intro sp hsp
        rcases List.mem_cons.mp hsp with h | h
        · rw [h]; omega
        · rw [List.mem_singleton] at h; rw [h]; omega
    have key := resolveSpans_pair_both t idLabel [a, b] b a rfl hsorted hdisj
    constructor
    · unfold acceptedSpans
      rw [hcol]
      exact key.1
    · unfold replace_identifiers replaceWithPats
      rw [hcol]
      exact key.2
  · -- (c1) equal width, overlapping, first-collected span starts first
    intro t a b hcol hw ho1 ho2 hst
    have hma : a ∈ collectSpans PATTERNS t := by
      rw [hcol]; exact List.mem_cons_self a [b]
    have hmb : b ∈ collectSpans PATTERNS t := by
      rw [hcol]; exact List.mem_cons_of_mem a (List.mem_cons_self b [])
    have hwa := collect_wf_PATTERNS hma
    have hwb := collect_wf_PATTERNS hmb
    have hsorted : sortSpans [a, b] = [a, b] := by
      apply sortSpans_eq_of
      · exact List.Perm.refl _
      · apply List.pairwise_cons.mpr
        refine ⟨?_, List.pairwise_singleton _ _⟩
        intro z hz
        rw [List.mem_singleton] at hz
        rw [hz]
        exact spanLE_iff.mpr (Or.inr ⟨hw, hst⟩)
      · intro sp hsp
        rcases List.mem_cons.mp hsp with h | h
        · rw [h]; omega
        · rw [List.mem_singleton] at h; rw [h]; omega
    have key := resolveSpans_pair_skip t idLabel [a, b] a b rfl hsorted
      (by omega) (by omega) (by omega) (by omega) (by omega)
    constructor
    · unfold acceptedSpans
      rw [hcol]
      exact key.1
    · unfold replace_identifiers replaceWithPats
      rw [hcol]
      exact key.2
  · -- (c2) equal width, overlapping, second-collected span starts first
    intro t a b hcol hw ho1 ho2 hst
    have hma : a ∈ collectSpans PATTERNS t := by
      rw [hcol]; exact List.mem_cons_self a [b]
    have hmb : b ∈ collectSpans PATTERNS t := by
      rw [hcol]; exact List.mem_cons_of_mem a (List.mem_cons_self b [])
    have hwa := collect_wf_PATTERNS hma
    have hwb := collect_wf_PATTERNS hmb
    have hsorted : sortSpans [a, b] = [b, a] := by
      apply sortSpans_eq_of
      · exact List.Perm.swap a b []
      · apply List.pairwise_cons.mpr
        refine ⟨?_, List.pairwise_singleton _ _⟩
        intro z hz
        rw [List.mem_singleton] at hz
        rw [hz]
        exact spanLE_iff.mpr (Or.inr ⟨hw.symm, hst⟩)
      · intro sp hsp
        rcases List.mem_cons.mp hsp with h | h
        · rw [h]; omega
        · rw [List.mem_singleton] at h; rw [h]; omega
    have key := resolveSpans_pair_skip t idLabel [a, b] b a rfl hsorted
      (by omega) (by omega) (by omega) (by omega) (by omega)
    constructor
    · unfold acceptedSpans
      rw [hcol]
      exact key.1
    · unfold replace_identifiers replaceWithPats
      rw [hcol]
      exact key.2

/-- Witness for C6: all six conjuncts at concrete inputs, covering both
collection orders.  `"20-12345678-1"` collects the contained RUC_PRY span
first, `"J-12345678-9"` collects the containing RIF_VEN span first;
`"C-12345678 C-87654321"` collects the left passport span first,
`"G-87654321 C-12345678"` collects the right one first (PAS_CHI precedes
PAS_MEX in the catalog); `"123-456789-1234"` collects the identical 15-wide
CI_NIC and RUC_NIC spans, exercising both overlap conjuncts. -/
theorem C6_witness :
    (acceptedSpans PATTERNS "20-12345678-1".toList = [(0, 13)] ∧
      replace_identifiers "20-12345678-1".toList idLabel =
        spliceAssign "20-12345678-1".toList 0 13 (ljust idLabel 13)) ∧
    (acceptedSpans PATTERNS "J-12345678-9".toList = [(0, 12)] ∧
      replace_identifiers "J-12345678-9".toList idLabel =
        spliceAssign "J-12345678-9".toList 0 12 (ljust idLabel 12)) ∧
    (acceptedSpans PATTERNS "C-12345678 C-87654321".toList = [(0, 10), (11, 21)] ∧
      replace_identifiers "C-12345678 C-87654321".toList idLabel =
        spliceAssign (spliceAssign "C-12345678 C-87654321".toList 0 10
          (ljust idLabel 10)) 11 21 (ljust idLabel 10)) ∧
    (acceptedSpans PATTERNS "G-87654321 C-12345678".toList = [(0, 10), (11, 21)] ∧
      replace_identifiers "G-87654321 C-12345678".toList idLabel =
        spliceAssign (spliceAssign "G-87654321 C-12345678".toList 0 10
          (ljust idLabel 10)) 11 21 (ljust idLabel 10)) ∧
    (acceptedSpans PATTERNS "123-456789-1234".toList = [(0, 15)] ∧
      replace_identifiers "123-456789-1234".toList idLabel =
        spliceAssign "123-456789-1234".toList 0 15 (ljust idLabel 15)) ∧
    (acceptedSpans PATTERNS "123-456789-1234".toList = [(0, 15)] ∧
      replace_identifiers "123-456789-1234".toList idLabel =
        spliceAssign "123-456789-1234".toList 0 15 (ljust idLabel 15)) :=
  ⟨C6_longest_match_and_tiebreak.1 "20-12345678-1".toList (3, 13) (0, 13)
      (by decide) (by decide) (by decide) (by decide),
   C6_longest_match_and_tiebreak.2.1 "J-12345678-9".toList (0, 12) (2, 12)
      (by decide) (by decide) (by decide) (by decide),
   C6_longest_match_and_tiebreak.2.2.1 "C-12345678 C-87654321".toList
      (0, 10) (11, 21) (by decide) (by decide) (by decide),
   C6_longest_match_and_tiebreak.2.2.2.1 "G-87654321 C-12345678".toList
      (11, 21) (0, 10) (by decide) (by decide) (by decide),
   C6_longest_match_and_tiebreak.2.2.2.2.1 "123-456789-1234".toList
      (0, 15) (0, 15) (by decide) (by decide) (by decide) (by decide) (by decide),
   C6_longest_match_and_tiebreak.2.2.2.2.2 "123-456789-1234".toList
      (0, 15) (0, 15) (by decide) (by decide) (by decide) (by decide) (by decide)⟩

/-- C8: Determinism and order-independence — the resolver's output depends
only on the multiset of candidate spans: permuting the candidate list (for
well-formed spans), or permuting the pattern list scanned to collect it,
never changes the output. -/
theorem C8_order_independence :
    (∀ (l₁ l₂ : List (Nat × Nat)) (t label : List Char),
      (∀ sp ∈ l₁, sp.1 ≤ sp.2) → l₁.Perm l₂ →
      resolveSpans l₁ t label = resolveSpans l₂ t label) ∧
    (∀ (p₁ p₂ : List RE) (t label : List Char), p₁.Perm p₂ →
      replaceWithPats p₁ t label = replaceWithPats p₂ t label) := by
  have hspan : ∀ (l₁ l₂ : List (Nat × Nat)) (t label : List Char),
      (∀ sp ∈ l₁, sp.1 ≤ sp.2) → l₁.Perm l₂ →
      resolveSpans l₁ t label = resolveSpans l₂ t label := by
    intro l₁ l₂ t label hwf hp
    have hsort : sortSpans l₂ = sortSpans l₁ := by
      apply sortSpans_eq_of
      · exact (sortSpans_perm l₁).trans hp
      · exact sortSpans_sorted l₁
      · intro sp hsp
        exact hwf sp (hp.mem_iff.mpr hsp)
    unfold resolveSpans
    by_cases h1 : l₁.isEmpty
    · have e1 : l₁ = [] := List.isEmpty_iff.mp h1
      have e2 : l₂ = [] := (e1 ▸ hp).nil_eq.symm
      rw [e1, e2]
    · have h2 : ¬l₂.isEmpty = true := by
        intro hc
        rw [List.isEmpty_iff.mp hc] at hp
        exact h1 (List.isEmpty_iff.mpr hp.symm.nil_eq.symm)
      rw [if_neg h1, if_neg h2, hsort]
  refine ⟨hspan, ?_⟩
  intro p₁ p₂ t label hp
  unfold replaceWithPats
  apply hspan
  · intro sp hsp
    exact (collectSpans_wf hsp).1
  · exact List.Perm.flatMap_right _ hp

/-- Witness for C8: a permuted candidate list and a permuted two-pattern
catalog on concrete inputs. -/
theorem C8_witness :
    resolveSpans [(0, 4), (5, 15)] "P111 C-12345678".toList idLabel =
      resolveSpans [(5, 15), (0, 4)] "P111 C-12345678".toList idLabel ∧
    replaceWithPats [Pat.RUT_CHI, Pat.CUIT_ARG] "Mi RUT es 12.345.678-9".toList
        idLabel =
      replaceWithPats [Pat.CUIT_ARG, Pat.RUT_CHI] "Mi RUT es 12.345.678-9".toList
        idLabel :=
  ⟨C8_order_independence.1 [(0, 4), (5, 15)] [(5, 15), (0, 4)]
      "P111 C-12345678".toList idLabel (by decide) (by decide),
   C8_order_independence.2 [Pat.RUT_CHI, Pat.CUIT_ARG] [Pat.CUIT_ARG, Pat.RUT_CHI]
      "Mi RUT es 12.345.678-9".toList idLabel (by decide)⟩

/-- C9: Duplicate-span tolerance — CI_NIC and RUC_NIC are textually
identical in both catalogs, so they contribute exact-duplicate candidate
spans on every input; the resolver accepts one copy of each duplicated
span and discards the others as overlaps, so its output equals the output
on the deduplicated candidate list, and the accepted list never holds a
span twice. -/
theorem C9_duplicate_tolerance :
    Pat.CI_NIC = Pat.RUC_NIC ∧ OPat.CI_NIC = OPat.RUC_NIC ∧
    (∀ t : List Char, finditer Pat.CI_NIC t = finditer Pat.RUC_NIC t) ∧
    (∀ (t label : List Char),
      resolveSpans (collectSpans PATTERNS t) t label =
        resolveSpans ((collectSpans PATTERNS t).dedup) t label) ∧
    (∀ t : List Char, (acceptedSpans PATTERNS t).Nodup) := by
  refine ⟨rfl, rfl, fun t => rfl, ?_, ?_⟩
  · intro t label
    apply resolveSpans_dedup
    intro sp hsp
    have := collect_wf_PATTERNS hsp
    omega
  · intro t
    have hpw := acceptedSpans_pairwise PATTERNS t
    apply List.Pairwise.imp_of_mem ?_ hpw
    intro a b ha _ hov
    intro hab
    subst hab
    have hwf := collect_wf_PATTERNS (acceptedSpans_mem ha)
    rw [Bool.eq_false_iff] at hov
    exact hov (overlapB_iff.mpr (by omega))
